import Mathlib

/-!
Shallow embedding of the `terrain_flow` repository (terrain mesh construction
and hydraulic erosion simulation) and verification of its specification.

Numeric values are embedded as `ℚ` (exact arithmetic standing in for `f64`).
Randomness (precipitation draws, probe angles of the point sampler) is made
explicit as parameters.  Stateful Rust code is embedded as explicit state
passing; fallible indexing returns `Option`.
-/

/-- Modelled from the spec: the `Point` record of `src/point.rs`, which is not
present in the repository snapshot; the spec defines it as a plain coordinate
pair `{x: f64, y: f64}` with no identity beyond value. -/
structure Point where
  x : ℚ
  y : ℚ
deriving Repr, DecidableEq, Inhabited

/-- `NeighborData` from src/terrain.rs: a directed edge record cached on the
owning cell. -/
structure NeighborData where
  index : Nat
  distance : ℚ
deriving Repr, DecidableEq, Inhabited

/-- `Cell` from src/terrain.rs. -/
structure Cell where
  location : Point
  height : ℚ
  depth : ℚ
  neighbor_data : List NeighborData
deriving Repr, DecidableEq, Inhabited

/-- `TerrainDelta` from src/terrain.rs. -/
structure TerrainDelta where
  cell_index : Nat
  height_delta : ℚ
  depth_delta : ℚ
deriving Repr, DecidableEq, Inhabited

/-- `Terrain` from src/terrain.rs: an ordered collection of cells, indexed by
position. -/
structure Terrain where
  cells : List Cell
deriving Repr, DecidableEq, Inhabited

/-- `TerrainDelta::new`. -/
def TerrainDelta.new (cell_index : Nat) : TerrainDelta :=
  { cell_index := cell_index, height_delta := 0, depth_delta := 0 }

/-- Default cell used for out-of-range `getD` reads; the Rust source panics
there instead, and the theorems below carry in-bounds hypotheses wherever the
source would be reached with such an index. -/
def dummyCell : Cell :=
  { location := ⟨0, 0⟩, height := 0, depth := 0, neighbor_data := [] }

/-- `Cell::new`. -/
def Cell.new (location : Point) (height depth : ℚ) : Cell :=
  { location := location, height := height, depth := depth, neighbor_data := [] }

/-- `Terrain::cells_len`. -/
def Terrain.cells_len (t : Terrain) : Nat := t.cells.length

/-- `Terrain::get_cell` (the Rust index panics out of range; reads are only
performed at in-range indices in the theorems below). -/
def Terrain.get_cell (t : Terrain) (index : Nat) : Cell :=
  t.cells.getD index dummyCell

/-- `Cell::apply_delta`. -/
def Cell.apply_delta (c : Cell) (height_delta level_delta : ℚ) : Cell :=
  { c with height := c.height + height_delta, depth := c.depth + level_delta }

/-- `Terrain::apply_delta`; the out-of-bounds panic of `self.cells[...]` is
embedded as `none`. -/
def Terrain.apply_delta (t : Terrain) (delta : TerrainDelta) : Option Terrain :=
  if delta.cell_index < t.cells.length then
    let updated :=
      (t.cells.getD delta.cell_index dummyCell).apply_delta delta.height_delta delta.depth_delta
    some { cells := t.cells.set delta.cell_index updated }
  else
    none

/-- `Terrain::apply_deltas`: apply each delta in order. -/
def Terrain.apply_deltas (t : Terrain) (deltas : List TerrainDelta) : Option Terrain :=
  deltas.foldlM Terrain.apply_delta t

/-- `DefaultFlow` configuration record from src/default_flow.rs. -/
structure DefaultFlow where
  flow_rate : ℚ
  flow_erosion_rate : ℚ
  erosion_threshold : ℚ
  erosion_rate : ℚ
  precipitation_rate : ℚ
  precipitation_amount : ℚ
deriving Repr, DecidableEq, Inhabited

/-- `TransferWeight` from src/default_flow.rs. -/
structure TransferWeight where
  weight : ℚ
  available : ℚ
deriving Repr, DecidableEq, Inhabited

/-- The largest finite `f64` value, `f64::MAX = (2 - 2^-52) * 2^1023`, the
seed of the `available` fold in `aggregate_transfer_weights`. -/
def f64MAX : ℚ := 2 ^ 1024 - 2 ^ 971

/-- `DefaultFlow::calc_sink_deltas`. -/
def DefaultFlow.calc_sink_deltas (_f : DefaultFlow) (cell_index : Nat) (cell : Cell) :
    List TerrainDelta :=
  let height_delta := if cell.height < 0 then -0.5 * cell.height else 0
  let depth_delta := if cell.depth > 1.0 then -0.5 * (cell.depth - 1.0) else 0
  [{ cell_index := cell_index, height_delta := height_delta, depth_delta := depth_delta }]

/-- `DefaultFlow::calc_flow_weight`: `diff` is the total-surface differential,
`slope = diff / distance`; accepted only when `slope > 0`, with weight
`slope³` and available `min(depth, diff/2)`. -/
def DefaultFlow.calc_flow_weight (_f : DefaultFlow) (cell neighbor : Cell) (distance : ℚ) :
    Option TransferWeight :=
  let diff := (cell.height + cell.depth) - (neighbor.height + neighbor.depth)
  let slope := diff / distance
  let available := min cell.depth (diff / 2)
  if slope > 0 then
    some { weight := slope * slope * slope, available := available }
  else
    none

/-- `DefaultFlow::calc_erosion_weight`: height-only differential; accepted only
when `slope > erosion_threshold`, with weight `slope` and available `diff/2`. -/
def DefaultFlow.calc_erosion_weight (f : DefaultFlow) (cell neighbor : Cell) (distance : ℚ) :
    Option TransferWeight :=
  let diff := cell.height - neighbor.height
  let slope := diff / distance
  let available := diff / 2
  if slope > f.erosion_threshold then
    some { weight := slope, available := available }
  else
    none

/-- `calc_transfer_weights_with`: the Rust code collects the accepted
`(neighbor index, weight)` pairs into a `HashMap`; since a cell's neighbor
list never repeats an index, this is embedded as the association list in
neighbor-list order. -/
def calc_transfer_weights_with (terrain : Terrain) (cell : Cell)
    (calcWeight : Cell → Cell → NeighborData → Option TransferWeight) :
    List (Nat × TransferWeight) :=
  cell.neighbor_data.filterMap (fun nd =>
    (calcWeight cell (terrain.get_cell nd.index) nd).map (fun tw => (nd.index, tw)))

/-- `DefaultFlow::calc_flow_weights`. -/
def DefaultFlow.calc_flow_weights (f : DefaultFlow) (terrain : Terrain) (cell : Cell) :
    List (Nat × TransferWeight) :=
  calc_transfer_weights_with terrain cell (fun cell neighbor nd =>
    f.calc_flow_weight cell neighbor nd.distance)

/-- `DefaultFlow::calc_erosion_weights`. -/
def DefaultFlow.calc_erosion_weights (f : DefaultFlow) (terrain : Terrain) (cell : Cell) :
    List (Nat × TransferWeight) :=
  calc_transfer_weights_with terrain cell (fun cell neighbor nd =>
    f.calc_erosion_weight cell neighbor nd.distance)

/-- `aggregate_transfer_weights`: fold summing the weights and taking the
minimum of the availables, seeded with `{weight: 0, available: f64::MAX}`. -/
def aggregate_transfer_weights (l : List TransferWeight) : TransferWeight :=
  l.foldl
    (fun acc cur =>
      { weight := acc.weight + cur.weight, available := min acc.available cur.available })
    { weight := 0, available := f64MAX }

/-- The `entry(i).or_insert(TerrainDelta::new(i))` followed by a field update,
on the `neighbor_deltas` map of `calc_flow_deltas`; the `HashMap` is embedded
as an association list in insertion order. -/
def upsertNeighborDelta (m : List (Nat × TerrainDelta)) (i : Nat)
    (upd : TerrainDelta → TerrainDelta) : List (Nat × TerrainDelta) :=
  if m.any (fun p => p.1 == i) then
    m.map (fun p => if p.1 == i then (p.1, upd p.2) else p)
  else
    m ++ [(i, upd (TerrainDelta.new i))]

/-- The `self_delta.get_or_insert(TerrainDelta::new(cell_index))` followed by a
field update, in `calc_flow_deltas`. -/
def upsertSelfDelta (s : Option TerrainDelta) (cell_index : Nat)
    (upd : TerrainDelta → TerrainDelta) : Option TerrainDelta :=
  some (upd (s.getD (TerrainDelta.new cell_index)))

/-- One iteration of the flow-distribution loop of
`DefaultFlow::calc_flow_deltas` (lines 102-118 of src/default_flow.rs). -/
def flowStep (f : DefaultFlow) (cell_index : Nat) (flow_agg : TransferWeight)
    (st : Option TerrainDelta × List (Nat × TerrainDelta)) (p : Nat × TransferWeight) :
    Option TerrainDelta × List (Nat × TerrainDelta) :=
  let depth_delta := (p.2.weight / flow_agg.weight) * flow_agg.available * f.flow_rate
  let height_delta := depth_delta * f.flow_erosion_rate
  if depth_delta > 0 then
    (upsertSelfDelta st.1 cell_index (fun d =>
       { d with depth_delta := d.depth_delta - depth_delta,
                height_delta := d.height_delta - height_delta }),
     upsertNeighborDelta st.2 p.1 (fun d =>
       { d with depth_delta := d.depth_delta + depth_delta }))
  else st

/-- One iteration of the erosion-distribution loop of
`DefaultFlow::calc_flow_deltas` (lines 120-133 of src/default_flow.rs). -/
def erosionStep (f : DefaultFlow) (cell_index : Nat) (erosion_agg : TransferWeight)
    (st : Option TerrainDelta × List (Nat × TerrainDelta)) (p : Nat × TransferWeight) :
    Option TerrainDelta × List (Nat × TerrainDelta) :=
  let height_delta := (p.2.weight / erosion_agg.weight) * erosion_agg.available * f.erosion_rate
  if height_delta > 0 then
    (upsertSelfDelta st.1 cell_index (fun d =>
       { d with height_delta := d.height_delta - height_delta }),
     upsertNeighborDelta st.2 p.1 (fun d =>
       { d with height_delta := d.height_delta + height_delta }))
  else st

/-- `DefaultFlow::calc_flow_deltas`.  The random `calc_precipitation` draw is
made explicit as the `precipitation` parameter (`some amount` when the
Bernoulli draw succeeds, `none` otherwise). -/
def DefaultFlow.calc_flow_deltas (f : DefaultFlow) (cell_index : Nat) (cell : Cell)
    (terrain : Terrain) (precipitation : Option ℚ) : List TerrainDelta :=
  let flow_weights := f.calc_flow_weights terrain cell
  let flow_agg := aggregate_transfer_weights (flow_weights.map Prod.snd)
  let erosion_weights := f.calc_erosion_weights terrain cell
  let erosion_agg := aggregate_transfer_weights (erosion_weights.map Prod.snd)
  let st1 := flow_weights.foldl (flowStep f cell_index flow_agg) (none, [])
  let st2 := erosion_weights.foldl (erosionStep f cell_index erosion_agg) st1
  let st3 :=
    match precipitation with
    | some amount =>
        (upsertSelfDelta st2.1 cell_index (fun d =>
           { d with depth_delta := d.depth_delta + amount }), st2.2)
    | none => st2
  st3.2.map Prod.snd ++ st3.1.toList

/-- `DefaultFlow::do_flow`: every cell contributes its flow deltas and its
sink deltas.  The fork-join worker pool collects the same per-cell records in
a nondeterministic order; the embedding lists them in cell-index order (all
verified properties are order-independent). -/
def DefaultFlow.do_flow (f : DefaultFlow) (terrain : Terrain)
    (precipitation : Nat → Option ℚ) : List TerrainDelta :=
  (List.range terrain.cells_len).flatMap (fun cell_index =>
    f.calc_flow_deltas cell_index (terrain.get_cell cell_index) terrain
      (precipitation cell_index) ++
    f.calc_sink_deltas cell_index (terrain.get_cell cell_index))

/-- The scaling of one delta inside `FlowEngine::step`. -/
def scaleDelta (time_delta : ℚ) (d : TerrainDelta) : TerrainDelta :=
  { d with height_delta := d.height_delta * time_delta,
           depth_delta := d.depth_delta * time_delta }

/-- `FlowEngine::step`: the strategy's delta list is an explicit parameter
(the `Flow` trait is abstract); every delta is scaled by `time_delta` and the
list is applied to the owned terrain. -/
def FlowEngine.step (terrain : Terrain) (deltas : List TerrainDelta) (time_delta : ℚ) :
    Option Terrain :=
  terrain.apply_deltas (deltas.map (scaleDelta time_delta))

/-- Application of a cell's own sink deltas to itself with unit time scale
(used to iterate the sink correction in isolation). -/
def sinkStep (f : DefaultFlow) (c : Cell) : Cell :=
  (f.calc_sink_deltas 0 c).foldl (fun c d => c.apply_delta d.height_delta d.depth_delta) c

/-- `Cell::add_neighbor`: skip when an edge to `index` already exists,
otherwise push a `NeighborData` with the Euclidean distance to the neighbor's
location.  `sqrtFn` abstracts `f64::sqrt` (any function; only that it is a
function of the squared distance matters for the graph invariants). -/
def Cell.add_neighbor (sqrtFn : ℚ → ℚ) (c : Cell) (index : Nat)
    (neighbor_location : Point) : Cell :=
  if (c.neighbor_data.find? (fun nd => nd.index == index)).isNone then
    let x_dist := c.location.x - neighbor_location.x
    let y_dist := c.location.y - neighbor_location.y
    let distance := sqrtFn (x_dist * x_dist + y_dist * y_dist)
    { c with neighbor_data := c.neighbor_data ++ [{ index := index, distance := distance }] }
  else
    c

/-- Replace the cell at one index by applying a function to it (the
`cells[cell_index].add_neighbor(..)` statement); indices past the end leave
the list unchanged (the source panics there, and every theorem below keeps
triangle indices in range). -/
def setCellAt : List Cell → Nat → (Cell → Cell) → List Cell
  | [], _, _ => []
  | c :: cs, 0, f => f c :: cs
  | c :: cs, Nat.succ n, f => c :: setCellAt cs n f

/-- Process one ordered vertex pair of a triangle: read the neighbor's
location, then add the edge on the owning cell. -/
def addNeighborPair (sqrtFn : ℚ → ℚ) (cells : List Cell) (p : Nat × Nat) : List Cell :=
  let neighbor_location := (cells.getD p.2 dummyCell).location
  setCellAt cells p.1 (fun c => c.add_neighbor sqrtFn p.2 neighbor_location)

/-- The six ordered pairs of distinct vertex positions of one triangle, in the
order the nested `cell_vertex`/`neighbor_vertex` loops of
`Terrain::calculate_neighbors` visit them. -/
def trianglePairs (tri : Nat × Nat × Nat) : List (Nat × Nat) :=
  [(tri.1, tri.2.1), (tri.1, tri.2.2),
   (tri.2.1, tri.1), (tri.2.1, tri.2.2),
   (tri.2.2, tri.1), (tri.2.2, tri.2.1)]

/-- `Terrain::calculate_neighbors`: the triangulation (the external delaunator
crate's output, its flat triangle vector grouped in threes) is the explicit
`triangles` parameter. -/
def Terrain.calculate_neighbors (sqrtFn : ℚ → ℚ) (triangles : List (Nat × Nat × Nat))
    (cells : List Cell) : List Cell :=
  triangles.foldl (fun cs tri => (trianglePairs tri).foldl (addNeighborPair sqrtFn) cs) cells

/-- `Terrain::generate`: one cell per input point with the attribute functions
evaluated at its location, then the neighbor graph. -/
def Terrain.generate (sqrtFn : ℚ → ℚ) (triangles : List (Nat × Nat × Nat))
    (points : List Point) (height_at depth_at : Point → ℚ) : Terrain :=
  { cells := Terrain.calculate_neighbors sqrtFn triangles
      (points.map (fun p => Cell.new p (height_at p) (depth_at p))) }

/-- `Bounds` from src/point_gen.rs (`Bounds::new` asserts `min_inc < max_exc`;
theorems that need it carry that hypothesis). -/
structure Bounds where
  min_inc : ℚ
  max_exc : ℚ
deriving Repr, DecidableEq, Inhabited

/-- `Bounds::contains`: membership in the half-open interval. -/
def Bounds.contains (b : Bounds) (val : ℚ) : Bool :=
  decide (b.min_inc ≤ val) && decide (val < b.max_exc)

/-- `kdtree::distance::squared_euclidean` on two-dimensional points. -/
def squared_euclidean (p q : Point) : ℚ :=
  (p.x - q.x) * (p.x - q.x) + (p.y - q.y) * (p.y - q.y)

/-- `PointGenerator` from src/point_gen.rs; the external kdtree crate's
proximity index is embedded as the list of indexed points. -/
structure PointGenerator where
  x_bounds : Bounds
  y_bounds : Bounds
  min_spacing : ℚ
  min_spacing_sq : ℚ
  point_queue : List Point
  kd_tree : List Point
  init : Bool
deriving Repr, DecidableEq, Inhabited

/-- `PointGenerator::new`. -/
def PointGenerator.new (x_bounds y_bounds : Bounds) (min_spacing : ℚ) : PointGenerator :=
  { x_bounds := x_bounds, y_bounds := y_bounds, min_spacing := min_spacing,
    min_spacing_sq := min_spacing * min_spacing,
    point_queue := [], kd_tree := [], init := false }

/-- Modelled from the spec: the proximity query of the external kdtree crate,
`kd_tree.within(point, radius, squared_euclidean)`; per the spec a previously
indexed point is a match only when strictly within the squared radius
("inclusive boundary is not a match - strictly within triggers rejection"). -/
def kdWithin (tree : List Point) (p : Point) (radius : ℚ) : List Point :=
  tree.filter (fun q => decide (squared_euclidean p q < radius))

/-- `PointGenerator::point_in_bounds`. -/
def PointGenerator.point_in_bounds (g : PointGenerator) (p : Point) : Bool :=
  g.x_bounds.contains p.x && g.y_bounds.contains p.y

/-- `PointGenerator::point_has_space`: the proximity query at squared radius
`min_spacing_sq` finds nothing. -/
def PointGenerator.point_has_space (g : PointGenerator) (p : Point) : Bool :=
  (kdWithin g.kd_tree p g.min_spacing_sq).isEmpty

/-- `PointGenerator::gen_neighbor_point`: the source probes up to 100
candidates at distance `min_spacing` from the anchor at angles stepped from a
random base angle, and accepts the first one that is in bounds and has space.
The randomized trigonometric candidate sequence is abstracted as the explicit
`candidates` list; the acceptance test is exact. -/
def PointGenerator.gen_neighbor_point (g : PointGenerator) (candidates : List Point) :
    Option Point :=
  candidates.find? (fun p => g.point_in_bounds p && g.point_has_space p)

/-- `PointGenerator::gen_init_point`: sets `init`, builds the initial point
from the bounds, pushes it on the active queue, indexes it, and returns it.
The active queue (a `Vec` used as a LIFO stack) is embedded with its top at
the list head. -/
def PointGenerator.gen_init_point (g : PointGenerator) : Point × PointGenerator :=
  let init_point : Point :=
    { x := (g.x_bounds.max_exc - g.x_bounds.min_inc) / 2,
      y := (g.y_bounds.max_exc - g.y_bounds.min_inc) / 2 }
  (init_point,
   { g with init := true,
            point_queue := init_point :: g.point_queue,
            kd_tree := init_point :: g.kd_tree })

/-- The `while` loop of `PointGenerator::gen_next_point`, structurally
recursive on the active queue (each anchor that yields no neighbor is popped
and discarded); `oracle` supplies the candidate probes for each anchor
attempt. -/
def PointGenerator.next_loop (g : PointGenerator) :
    List Point → List (List Point) → Option Point × PointGenerator
  | [], _ => (none, { g with point_queue := [] })
  | anchor :: rest, oracle =>
    match g.gen_neighbor_point (oracle.headD []) with
    | some neighbor_point =>
        (some neighbor_point,
         { g with point_queue := neighbor_point :: anchor :: rest,
                  kd_tree := neighbor_point :: g.kd_tree })
    | none => g.next_loop rest oracle.tail

/-- `PointGenerator::gen_next_point`. -/
def PointGenerator.gen_next_point (g : PointGenerator) (oracle : List (List Point)) :
    Option Point × PointGenerator :=
  g.next_loop g.point_queue oracle

/-- `PointGenerator::next_point` (the body of the `Iterator` implementation). -/
def PointGenerator.next_point (g : PointGenerator) (oracle : List (List Point)) :
    Option Point × PointGenerator :=
  if !g.init then
    let r := g.gen_init_point
    (some r.1, r.2)
  else
    g.gen_next_point oracle

/-- Repeatedly call `next_point` with the given per-call oracles, collecting
every emitted point. -/
def PointGenerator.runGen : PointGenerator → List (List (List Point)) → List Point × PointGenerator
  | g, [] => ([], g)
  | g, oracle :: oracles =>
    let r := g.next_point oracle
    let rest := r.2.runGen oracles
    (r.1.toList ++ rest.1, rest.2)

/-- Well-formedness of a terrain: every cached neighbor index is a valid cell
index (what the triangulation-derived build produces, since triangle vertex
indices index the input point list). -/
def Terrain.wf (t : Terrain) : Prop :=
  ∀ c ∈ t.cells, ∀ nd ∈ c.neighbor_data, nd.index < t.cells.length

/-- Invariant of the delta-accumulation state of `calc_flow_deltas`: the self
delta (when present) targets the processed cell, and every neighbor entry
targets its own key, a key drawn from `allowed`. -/
def deltaStateOK (ci : Nat) (allowed : List Nat)
    (st : Option TerrainDelta × List (Nat × TerrainDelta)) : Prop :=
  (∀ d, st.1 = some d → d.cell_index = ci) ∧
  (∀ q ∈ st.2, q.2.cell_index = q.1 ∧ q.1 ∈ allowed)


/-- Concrete two-cell fixture: the higher-surface cell (height 0, depth 1)
with one neighbor at distance 1. -/
def witnessCellA : Cell := Cell.mk ⟨0, 0⟩ 0 1 [NeighborData.mk 1 1]

/-- Concrete two-cell fixture: the lower cell (height 0, depth 0). -/
def witnessCellB : Cell := Cell.mk ⟨1, 0⟩ 0 0 [NeighborData.mk 0 1]

/-- Concrete two-cell terrain fixture. -/
def witnessTerrain : Terrain := { cells := [witnessCellA, witnessCellB] }

/-- Concrete flow configuration fixture (unit rates, zero threshold, no
precipitation). -/
def witnessFlow : DefaultFlow := DefaultFlow.mk 1 1 0 1 0 0

/-- The flow weights of `witnessCellA` over `witnessTerrain`: one accepted
neighbor with weight 1 and available 1/2. -/
def witnessWeights : List (Nat × TransferWeight) := [(1, TransferWeight.mk 1 (1/2))]

/-- The aggregate of `witnessWeights`. -/
def witnessAgg : TransferWeight := aggregate_transfer_weights (witnessWeights.map Prod.snd)


/-- C8: in the erosion pass a neighbor is accepted exactly when
`slope = (height(c) - height(n)) / distance` is strictly greater than
`erosion_threshold` (slope equal to the threshold is excluded, anything
strictly above is included), and an accepted neighbor gets weight `slope` and
available `diff/2`. -/
theorem C8_erosion_threshold_strict (f : DefaultFlow) (cell neighbor : Cell) (distance : ℚ) :
    (f.calc_erosion_weight cell neighbor distance =
        some { weight := (cell.height - neighbor.height) / distance,
               available := (cell.height - neighbor.height) / 2 }
      ↔ f.erosion_threshold < (cell.height - neighbor.height) / distance) ∧
    (f.calc_erosion_weight cell neighbor distance = none
      ↔ ¬ f.erosion_threshold < (cell.height - neighbor.height) / distance) := by
  unfold DefaultFlow.calc_erosion_weight
  by_cases h : f.erosion_threshold < (cell.height - neighbor.height) / distance
  · simp [h]
  · simp [h]

/-- C6: the sink correction adds `height_delta = -0.5 * height` exactly when
`height < 0` (otherwise 0) and `depth_delta = -0.5 * (depth - 1)` exactly when
`depth > 1` (otherwise 0); iterating only the sink correction on a cell that
starts at height `-2` yields height `-2 * (1/2)^n` after `n` steps, which
never overshoots past `0` and is halved by every further step. -/
theorem C6_sink_correction (f : DefaultFlow) (cell_index : Nat) (cell c0 : Cell)
    (h0 : c0.height = -2) :
    (f.calc_sink_deltas cell_index cell =
      [{ cell_index := cell_index,
         height_delta := if cell.height < 0 then -0.5 * cell.height else 0,
         depth_delta := if cell.depth > 1.0 then -0.5 * (cell.depth - 1.0) else 0 }]) ∧
    (∀ n : Nat,
      ((sinkStep f)^[n] c0).height = -2 * (1 / 2) ^ n ∧
      ((sinkStep f)^[n] c0).height ≤ 0 ∧
      ((sinkStep f)^[n + 1] c0).height = ((sinkStep f)^[n] c0).height / 2) := by
  have hstep : ∀ c : Cell, (sinkStep f c).height =
      c.height + (if c.height < 0 then -0.5 * c.height else 0) := by
    intro c
    simp [sinkStep, DefaultFlow.calc_sink_deltas, Cell.apply_delta]
  have hiter : ∀ n : Nat, ((sinkStep f)^[n] c0).height = -2 * (1 / 2) ^ n := by
    intro n
    induction n with
    | zero => simpa using h0
    | succ n ih =>
      rw [Function.iterate_succ_apply', hstep, ih]
      have hneg : (-2 : ℚ) * (1 / 2) ^ n < 0 := by
        have : (0 : ℚ) < (1 / 2) ^ n := by positivity
        nlinarith
      rw [if_pos hneg]
      ring
  refine ⟨by simp [DefaultFlow.calc_sink_deltas], fun n => ⟨hiter n, ?_, ?_⟩⟩
  · rw [hiter n]
    have : (0 : ℚ) < (1 / 2) ^ n := by positivity
    nlinarith
  · rw [hiter n, hiter (n + 1)]
    ring

/-- C6 witness: the sink-iteration clause applied to a concrete cell at
height `-2`. -/
theorem C6_sink_correction_witness :
    (({ location := ⟨0, 0⟩, height := -2, depth := 0, neighbor_data := [] } : Cell).height = -2) ∧
    ((DefaultFlow.mk 1 1 0 1 0 0).calc_sink_deltas 0 dummyCell =
      [{ cell_index := 0,
         height_delta := if dummyCell.height < 0 then -0.5 * dummyCell.height else 0,
         depth_delta := if dummyCell.depth > 1.0 then -0.5 * (dummyCell.depth - 1.0) else 0 }]) ∧
    (∀ n : Nat,
      ((sinkStep (DefaultFlow.mk 1 1 0 1 0 0))^[n]
          ({ location := ⟨0, 0⟩, height := -2, depth := 0, neighbor_data := [] } : Cell)).height =
        -2 * (1 / 2) ^ n ∧
      ((sinkStep (DefaultFlow.mk 1 1 0 1 0 0))^[n]
          ({ location := ⟨0, 0⟩, height := -2, depth := 0, neighbor_data := [] } : Cell)).height ≤ 0 ∧
      ((sinkStep (DefaultFlow.mk 1 1 0 1 0 0))^[n + 1]
          ({ location := ⟨0, 0⟩, height := -2, depth := 0, neighbor_data := [] } : Cell)).height =
        ((sinkStep (DefaultFlow.mk 1 1 0 1 0 0))^[n]
          ({ location := ⟨0, 0⟩, height := -2, depth := 0, neighbor_data := [] } : Cell)).height / 2) :=
  ⟨rfl,
   (C6_sink_correction (DefaultFlow.mk 1 1 0 1 0 0) 0 dummyCell
      { location := ⟨0, 0⟩, height := -2, depth := 0, neighbor_data := [] } rfl).1,
   (C6_sink_correction (DefaultFlow.mk 1 1 0 1 0 0) 0 dummyCell
      { location := ⟨0, 0⟩, height := -2, depth := 0, neighbor_data := [] } rfl).2⟩

/-- C5: the first point emitted by the point generator is
`((x_max - x_min)/2, (y_max - y_min)/2)`, half the extent of each axis rather
than the center of the bounding rectangle: for bounds `[10, 20)` on both axes
the code emits `(5, 5)` while the exact center is `(15, 15)`. -/
theorem C5_init_point_not_center :
    (((PointGenerator.new { min_inc := 10, max_exc := 20 }
        { min_inc := 10, max_exc := 20 } 1).next_point []).1 =
      some { x := 5, y := 5 }) ∧
    (((10 : ℚ) + 20) / 2 = 15) ∧ ((5 : ℚ) ≠ 15) := by
  refine ⟨?_, by norm_num, by norm_num⟩
  simp only [PointGenerator.next_point, PointGenerator.new, PointGenerator.gen_init_point,
    Bool.not_false, if_pos, Option.some.injEq, Point.mk.injEq]
  norm_num

/-- C9: the first point emitted by the point generator need not satisfy the
axis `contains()` predicates: for bounds `[10, 20)` on both axes the generator
emits `(5, 5)`, which lies outside both axis Bounds (subsequent points are
checked by `point_in_bounds`, the first point is not). -/
theorem C9_init_point_out_of_bounds :
    (((PointGenerator.new { min_inc := 10, max_exc := 20 }
        { min_inc := 10, max_exc := 20 } 1).next_point []).1 =
      some { x := 5, y := 5 }) ∧
    (Bounds.contains { min_inc := 10, max_exc := 20 } 5 = false) ∧
    ((PointGenerator.new { min_inc := 10, max_exc := 20 }
        { min_inc := 10, max_exc := 20 } 1).point_in_bounds { x := 5, y := 5 } = false) := by
  refine ⟨?_, ?_, ?_⟩
  · simp only [PointGenerator.next_point, PointGenerator.new, PointGenerator.gen_init_point,
      Bool.not_false, if_pos, Option.some.injEq, Point.mk.injEq]
    norm_num
  · simp only [Bounds.contains, decide_eq_false_iff_not, Bool.and_eq_false_iff]
    norm_num
  · simp only [PointGenerator.point_in_bounds, PointGenerator.new, Bounds.contains,
      Bool.and_eq_false_iff, decide_eq_false_iff_not]
    norm_num

/-- Helper: the aggregation fold sums the weights and folds `min` over the
availables. -/
lemma aggregate_transfer_weights_eq (l : List TransferWeight) :
    aggregate_transfer_weights l =
      { weight := (l.map TransferWeight.weight).sum,
        available := (l.map TransferWeight.available).foldl min f64MAX } := by
  have key : ∀ (l : List TransferWeight) (acc : TransferWeight),
      l.foldl (fun acc cur =>
        { weight := acc.weight + cur.weight, available := min acc.available cur.available }) acc =
      { weight := acc.weight + (l.map TransferWeight.weight).sum,
        available := (l.map TransferWeight.available).foldl min acc.available } := by
    intro l
    induction l with
    | nil => intro acc; simp
    | cons x xs ih =>
      intro acc
      simp only [List.foldl_cons, List.map_cons, List.sum_cons, ih, TransferWeight.mk.injEq]
      exact ⟨by ring, trivial⟩
  rw [aggregate_transfer_weights, key]
  simp

/-- Helper: specification of folding `min` over a list of rationals. -/
lemma foldl_min_spec (l : List ℚ) (a : ℚ) :
    l.foldl min a ≤ a ∧ (∀ x ∈ l, l.foldl min a ≤ x) ∧
      (l.foldl min a = a ∨ l.foldl min a ∈ l) := by
  induction l generalizing a with
  | nil => simp
  | cons y ys ih =>
    obtain ⟨h1, h2, h3⟩ := ih (min a y)
    simp only [List.foldl_cons]
    refine ⟨le_trans h1 (min_le_left a y), ?_, ?_⟩
    · intro x hx
      rcases List.mem_cons.mp hx with rfl | hx
      · exact le_trans h1 (min_le_right a x)
      · exact h2 x hx
    · rcases h3 with h3 | h3
      · rcases le_total a y with hay | hya
        · exact Or.inl (by rw [h3, min_eq_left hay])
        · exact Or.inr (by rw [h3, min_eq_right hya]; exact List.mem_cons_self y ys)
      · exact Or.inr (List.mem_cons_of_mem y h3)

/-- C1: a flow transfer toward a neighbor is considered exactly when
`slope = ((height(c)+depth(c)) - (height(n)+depth(n))) / distance` is strictly
positive, in which case its weight is `slope³` and its available cap is
`min(depth(c), diff/2)`; the aggregate weight is the sum of the accepted
weights and the aggregate available is the minimum of the accepted availables
(attained on the list whenever it is nonempty and within f64 range); and when
no flow neighbor is accepted the flow loop contributes nothing, so the cell's
deltas reduce to the erosion and precipitation parts alone. -/
theorem C1_flow_weight_and_aggregation (f : DefaultFlow) (cell1 neighbor1 : Cell)
    (distance1 : ℚ) (l : List TransferWeight) (terrain : Terrain) (cell : Cell)
    (cell_index : Nat) (precipitation : Option ℚ)
    (hne : l ≠ [])
    (hbd : ∀ tw ∈ l, tw.available ≤ f64MAX)
    (hflow : f.calc_flow_weights terrain cell = []) :
    (f.calc_flow_weight cell1 neighbor1 distance1 =
        some { weight :=
                 (((cell1.height + cell1.depth) - (neighbor1.height + neighbor1.depth)) / distance1) *
                 (((cell1.height + cell1.depth) - (neighbor1.height + neighbor1.depth)) / distance1) *
                 (((cell1.height + cell1.depth) - (neighbor1.height + neighbor1.depth)) / distance1),
               available := min cell1.depth
                 (((cell1.height + cell1.depth) - (neighbor1.height + neighbor1.depth)) / 2) }
      ↔ 0 < ((cell1.height + cell1.depth) - (neighbor1.height + neighbor1.depth)) / distance1) ∧
    (f.calc_flow_weight cell1 neighbor1 distance1 = none
      ↔ ¬ 0 < ((cell1.height + cell1.depth) - (neighbor1.height + neighbor1.depth)) / distance1) ∧
    ((aggregate_transfer_weights l).weight = (l.map TransferWeight.weight).sum) ∧
    ((∀ tw ∈ l, (aggregate_transfer_weights l).available ≤ tw.available) ∧
      ∃ tw, tw ∈ l ∧ (aggregate_transfer_weights l).available = tw.available) ∧
    (f.calc_flow_deltas cell_index cell terrain precipitation =
      (let erosion_weights := f.calc_erosion_weights terrain cell
       let erosion_agg := aggregate_transfer_weights (erosion_weights.map Prod.snd)
       let st2 := erosion_weights.foldl (erosionStep f cell_index erosion_agg)
         ((none, []) : Option TerrainDelta × List (Nat × TerrainDelta))
       let st3 := match precipitation with
         | some amount => (upsertSelfDelta st2.1 cell_index
             (fun d => { d with depth_delta := d.depth_delta + amount }), st2.2)
         | none => st2
       st3.2.map Prod.snd ++ st3.1.toList)) := by
  refine ⟨?_, ?_, ?_, ⟨?_, ?_⟩, ?_⟩
  · unfold DefaultFlow.calc_flow_weight
    by_cases h : 0 < ((cell1.height + cell1.depth) - (neighbor1.height + neighbor1.depth)) / distance1
    · simp [h]
    · simp [h]
  · unfold DefaultFlow.calc_flow_weight
    by_cases h : 0 < ((cell1.height + cell1.depth) - (neighbor1.height + neighbor1.depth)) / distance1
    · simp [h]
    · simp [h]
  · rw [aggregate_transfer_weights_eq]
  · intro tw htw
    rw [aggregate_transfer_weights_eq]
    exact (foldl_min_spec (l.map TransferWeight.available) f64MAX).2.1 tw.available
      (List.mem_map_of_mem TransferWeight.available htw)
  · rw [aggregate_transfer_weights_eq]
    rcases (foldl_min_spec (l.map TransferWeight.available) f64MAX).2.2 with h | h
    · obtain ⟨x, hx⟩ := List.exists_mem_of_ne_nil l hne
      refine ⟨x, hx, le_antisymm ?_ ?_⟩
      · exact (foldl_min_spec (l.map TransferWeight.available) f64MAX).2.1 x.available
          (List.mem_map_of_mem TransferWeight.available hx)
      · rw [h]; exact hbd x hx
    · obtain ⟨tw, htw, heq⟩ := List.mem_map.mp h
      exact ⟨tw, htw, heq.symm⟩
  · simp only [DefaultFlow.calc_flow_deltas, hflow, List.map_nil, List.foldl_nil]

/-- C1 witness: the theorem applied to a one-element weight list, a cell with
no neighbors, and concrete parameters. -/
theorem C1_flow_weight_and_aggregation_witness :
    (([({ weight := 1, available := 2 } : TransferWeight)] : List TransferWeight) ≠ []) ∧
    (∀ tw ∈ [({ weight := 1, available := 2 } : TransferWeight)], tw.available ≤ f64MAX) ∧
    ((DefaultFlow.mk 2 1 0 1 0 0).calc_flow_weights { cells := [] } dummyCell = []) ∧
    (((DefaultFlow.mk 2 1 0 1 0 0).calc_flow_weight dummyCell dummyCell 1 =
        some { weight :=
                 (((dummyCell.height + dummyCell.depth) - (dummyCell.height + dummyCell.depth)) / 1) *
                 (((dummyCell.height + dummyCell.depth) - (dummyCell.height + dummyCell.depth)) / 1) *
                 (((dummyCell.height + dummyCell.depth) - (dummyCell.height + dummyCell.depth)) / 1),
               available := min dummyCell.depth
                 (((dummyCell.height + dummyCell.depth) - (dummyCell.height + dummyCell.depth)) / 2) }
      ↔ 0 < ((dummyCell.height + dummyCell.depth) - (dummyCell.height + dummyCell.depth)) / 1) ∧
    ((DefaultFlow.mk 2 1 0 1 0 0).calc_flow_weight dummyCell dummyCell 1 = none
      ↔ ¬ 0 < ((dummyCell.height + dummyCell.depth) - (dummyCell.height + dummyCell.depth)) / 1) ∧
    ((aggregate_transfer_weights [({ weight := 1, available := 2 } : TransferWeight)]).weight =
      (([({ weight := 1, available := 2 } : TransferWeight)].map TransferWeight.weight)).sum) ∧
    ((∀ tw ∈ [({ weight := 1, available := 2 } : TransferWeight)],
        (aggregate_transfer_weights [({ weight := 1, available := 2 } : TransferWeight)]).available ≤
          tw.available) ∧
      ∃ tw, tw ∈ [({ weight := 1, available := 2 } : TransferWeight)] ∧
        (aggregate_transfer_weights [({ weight := 1, available := 2 } : TransferWeight)]).available =
          tw.available) ∧
    ((DefaultFlow.mk 2 1 0 1 0 0).calc_flow_deltas 0 dummyCell { cells := [] } none =
      (let erosion_weights := (DefaultFlow.mk 2 1 0 1 0 0).calc_erosion_weights { cells := [] } dummyCell
       let erosion_agg := aggregate_transfer_weights (erosion_weights.map Prod.snd)
       let st2 := erosion_weights.foldl (erosionStep (DefaultFlow.mk 2 1 0 1 0 0) 0 erosion_agg)
         ((none, []) : Option TerrainDelta × List (Nat × TerrainDelta))
       let st3 := match (none : Option ℚ) with
         | some amount => (upsertSelfDelta st2.1 0
             (fun d => { d with depth_delta := d.depth_delta + amount }), st2.2)
         | none => st2
       st3.2.map Prod.snd ++ st3.1.toList))) :=
  ⟨by simp,
   by
     intro tw htw
     simp only [List.mem_singleton] at htw
     subst htw
     show (2 : ℚ) ≤ f64MAX
     rw [f64MAX]
     norm_num,
   rfl,
   C1_flow_weight_and_aggregation (DefaultFlow.mk 2 1 0 1 0 0) dummyCell dummyCell 1
     [{ weight := 1, available := 2 }] { cells := [] } dummyCell 0 none
     (by simp)
     (by
       intro tw htw
       simp only [List.mem_singleton] at htw
       subst htw
       show (2 : ℚ) ≤ f64MAX
       rw [f64MAX]
       norm_num)
     rfl⟩

/-- Per-index height contribution of a delta list: the sum of the height
deltas of the records targeting the given cell index. -/
def heightContribution (ds : List TerrainDelta) (i : Nat) : ℚ :=
  ((ds.filter (fun d => d.cell_index == i)).map TerrainDelta.height_delta).sum

/-- Per-index depth contribution of a delta list. -/
def depthContribution (ds : List TerrainDelta) (i : Nat) : ℚ :=
  ((ds.filter (fun d => d.cell_index == i)).map TerrainDelta.depth_delta).sum

lemma heightContribution_cons (d : TerrainDelta) (ds : List TerrainDelta) (i : Nat) :
    heightContribution (d :: ds) i =
      (if d.cell_index = i then d.height_delta else 0) + heightContribution ds i := by
  simp only [heightContribution, List.filter_cons]
  by_cases h : d.cell_index = i
  · simp [h]
  · simp [h]

lemma depthContribution_cons (d : TerrainDelta) (ds : List TerrainDelta) (i : Nat) :
    depthContribution (d :: ds) i =
      (if d.cell_index = i then d.depth_delta else 0) + depthContribution ds i := by
  simp only [depthContribution, List.filter_cons]
  by_cases h : d.cell_index = i
  · simp [h]
  · simp [h]

lemma getD_set_self (l : List Cell) (i : Nat) (a : Cell) (h : i < l.length) :
    (l.set i a).getD i dummyCell = a := by
  induction l generalizing i with
  | nil => simp at h
  | cons x xs ih =>
    cases i with
    | zero => rfl
    | succ n =>
      simp only [List.set, List.getD_cons_succ]
      exact ih n (Nat.lt_of_succ_lt_succ h)

lemma getD_set_ne (l : List Cell) (i j : Nat) (a : Cell) (h : i ≠ j) :
    (l.set i a).getD j dummyCell = l.getD j dummyCell := by
  induction l generalizing i j with
  | nil => simp
  | cons x xs ih =>
    cases i with
    | zero =>
      cases j with
      | zero => exact absurd rfl h
      | succ m => rfl
    | succ n =>
      cases j with
      | zero => rfl
      | succ m =>
        simp only [List.set, List.getD_cons_succ]
        exact ih n m (fun hnm => h (by rw [hnm]))

lemma apply_deltas_spec (ds : List TerrainDelta) (t : Terrain)
    (h : ∀ d ∈ ds, d.cell_index < t.cells.length) :
    ∃ t', t.apply_deltas ds = some t' ∧
      t'.cells.length = t.cells.length ∧
      ∀ i, i < t.cells.length →
        (t'.cells.getD i dummyCell).height =
          (t.cells.getD i dummyCell).height + heightContribution ds i ∧
        (t'.cells.getD i dummyCell).depth =
          (t.cells.getD i dummyCell).depth + depthContribution ds i ∧
        (t'.cells.getD i dummyCell).location = (t.cells.getD i dummyCell).location ∧
        (t'.cells.getD i dummyCell).neighbor_data = (t.cells.getD i dummyCell).neighbor_data := by
  induction ds generalizing t with
  | nil =>
    refine ⟨t, rfl, rfl, ?_⟩
    intro i _
    simp [heightContribution, depthContribution]
  | cons d ds ih =>
    have hd : d.cell_index < t.cells.length := h d (List.mem_cons_self d ds)
    set c1 : Cell :=
      (t.cells.getD d.cell_index dummyCell).apply_delta d.height_delta d.depth_delta with hc1
    set t1 : Terrain := { cells := t.cells.set d.cell_index c1 } with ht1
    have happly : t.apply_delta d = some t1 := by
      simp [Terrain.apply_delta, hd, ht1, hc1]
    have hlen1 : t1.cells.length = t.cells.length := by simp [ht1]
    have hrest : ∀ d' ∈ ds, d'.cell_index < t1.cells.length := by
      intro d' hd'
      rw [hlen1]
      exact h d' (List.mem_cons_of_mem d hd')
    obtain ⟨t', hsome, hlen, hchar⟩ := ih t1 hrest
    refine ⟨t', ?_, by rw [hlen, hlen1], ?_⟩
    · show (d :: ds).foldlM Terrain.apply_delta t = some t'
      rw [List.foldlM_cons, happly]
      simpa [Terrain.apply_deltas] using hsome
    · intro i hi
      have hi1 : i < t1.cells.length := by rw [hlen1]; exact hi
      obtain ⟨hh, hdp, hl, hn⟩ := hchar i hi1
      rw [heightContribution_cons, depthContribution_cons]
      by_cases hii : d.cell_index = i
      · subst hii
        have hupd : t1.cells.getD d.cell_index dummyCell =
            (t.cells.getD d.cell_index dummyCell).apply_delta d.height_delta d.depth_delta := by
          rw [ht1]
          exact getD_set_self _ _ _ hd
        rw [hupd] at hh hdp hl hn
        simp only [Cell.apply_delta] at hh hdp hl hn
        refine ⟨?_, ?_, ?_, ?_⟩
        · rw [hh]; simp only [eq_self_iff_true, if_true]; ring
        · rw [hdp]; simp only [eq_self_iff_true, if_true]; ring
        · exact hl
        · exact hn
      · have hsame : t1.cells.getD i dummyCell = t.cells.getD i dummyCell := by
          rw [ht1]
          exact getD_set_ne _ _ _ _ hii
        rw [hsame] at hh hdp hl hn
        refine ⟨?_, ?_, hl, hn⟩
        · rw [hh]; simp [hii]
        · rw [hdp]; simp [hii]

lemma apply_deltas_isSome_iff (ds : List TerrainDelta) (t : Terrain) :
    (t.apply_deltas ds).isSome = true ↔ ∀ d ∈ ds, d.cell_index < t.cells.length := by
  induction ds generalizing t with
  | nil => simp [Terrain.apply_deltas]
  | cons d ds ih =>
    by_cases hd : d.cell_index < t.cells.length
    · set c1 : Cell :=
        (t.cells.getD d.cell_index dummyCell).apply_delta d.height_delta d.depth_delta with hc1
      set t1 : Terrain := { cells := t.cells.set d.cell_index c1 } with ht1
      have happly : t.apply_delta d = some t1 := by
        simp [Terrain.apply_delta, hd, ht1, hc1]
      have hlen1 : t1.cells.length = t.cells.length := by simp [ht1]
      have hstep : t.apply_deltas (d :: ds) = t1.apply_deltas ds := by
        show (d :: ds).foldlM Terrain.apply_delta t = t1.apply_deltas ds
        rw [List.foldlM_cons, happly]
        rfl
      rw [hstep, ih t1]
      constructor
      · intro hall
        intro d' hd'
        rcases List.mem_cons.mp hd' with rfl | hd'
        · exact hd
        · rw [← hlen1]; exact hall d' hd'
      · intro hall d' hd'
        rw [hlen1]
        exact hall d' (List.mem_cons_of_mem d hd')
    · have : t.apply_deltas (d :: ds) = none := by
        show (d :: ds).foldlM Terrain.apply_delta t = none
        rw [List.foldlM_cons, Terrain.apply_delta]
        simp [hd]
      rw [this]
      simp only [Option.isSome_none, Bool.false_eq_true, false_iff]
      intro hall
      exact hd (hall d (List.mem_cons_self d ds))

lemma heightContribution_perm (ds ds' : List TerrainDelta) (i : Nat) (h : ds.Perm ds') :
    heightContribution ds i = heightContribution ds' i :=
  List.Perm.sum_eq (List.Perm.map _ (List.Perm.filter _ h))

lemma depthContribution_perm (ds ds' : List TerrainDelta) (i : Nat) (h : ds.Perm ds') :
    depthContribution ds i = depthContribution ds' i :=
  List.Perm.sum_eq (List.Perm.map _ (List.Perm.filter _ h))

lemma heightContribution_scale (ds : List TerrainDelta) (td : ℚ) (i : Nat) :
    heightContribution (ds.map (scaleDelta td)) i = heightContribution ds i * td := by
  induction ds with
  | nil => simp [heightContribution]
  | cons d ds ih =>
    rw [List.map_cons, heightContribution_cons, heightContribution_cons, ih]
    by_cases h : d.cell_index = i
    · simp only [scaleDelta, h, if_pos]
      ring
    · simp only [scaleDelta, h, if_neg, not_false_iff]
      ring

lemma depthContribution_scale (ds : List TerrainDelta) (td : ℚ) (i : Nat) :
    depthContribution (ds.map (scaleDelta td)) i = depthContribution ds i * td := by
  induction ds with
  | nil => simp [depthContribution]
  | cons d ds ih =>
    rw [List.map_cons, depthContribution_cons, depthContribution_cons, ih]
    by_cases h : d.cell_index = i
    · simp only [scaleDelta, h, if_pos]
      ring
    · simp only [scaleDelta, h, if_neg, not_false_iff]
      ring

lemma cell_eq_of_fields (c1 c2 : Cell) (hl : c1.location = c2.location)
    (hh : c1.height = c2.height) (hd : c1.depth = c2.depth)
    (hn : c1.neighbor_data = c2.neighbor_data) : c1 = c2 := by
  cases c1
  cases c2
  simp_all

lemma terrain_eq_of_getD (t1 t2 : Terrain) (hlen : t1.cells.length = t2.cells.length)
    (h : ∀ i, i < t1.cells.length → t1.cells.getD i dummyCell = t2.cells.getD i dummyCell) :
    t1 = t2 := by
  cases t1
  cases t2
  simp only [Terrain.mk.injEq]
  apply List.ext_getElem (by simpa using hlen)
  intro i h1 h2
  have := h i (by simpa using h1)
  rwa [List.getD_eq_getElem, List.getD_eq_getElem] at this

/-- C7: `FlowEngine::step` multiplies every delta's `height_delta` and
`depth_delta` by `time_delta` and then adds each delta's fields to the
targeted cell's current height and depth, so each cell ends at its previous
value plus the scaled per-cell sum; the result is the same for every
permutation of the delta list. -/
theorem C7_step_additive_order_independent (t : Terrain) (ds ds' : List TerrainDelta)
    (td : ℚ) (hperm : ds.Perm ds') :
    FlowEngine.step t ds td = FlowEngine.step t ds' td ∧
    ((∀ d ∈ ds, d.cell_index < t.cells.length) →
      ∃ t', FlowEngine.step t ds td = some t' ∧
        t'.cells.length = t.cells.length ∧
        ∀ i, i < t.cells.length →
          (t'.cells.getD i dummyCell).height =
            (t.cells.getD i dummyCell).height + heightContribution ds i * td ∧
          (t'.cells.getD i dummyCell).depth =
            (t.cells.getD i dummyCell).depth + depthContribution ds i * td) := by
  have hmemmap : ∀ (l : List TerrainDelta),
      (∀ d ∈ l, d.cell_index < t.cells.length) ↔
      (∀ d ∈ l.map (scaleDelta td), d.cell_index < t.cells.length) := by
    intro l
    constructor
    · intro hall d hd
      obtain ⟨d0, hd0, rfl⟩ := List.mem_map.mp hd
      simpa [scaleDelta] using hall d0 hd0
    · intro hall d hd
      have := hall (scaleDelta td d) (List.mem_map_of_mem _ hd)
      simpa [scaleDelta] using this
  constructor
  · by_cases hin : ∀ d ∈ ds, d.cell_index < t.cells.length
    · have hin' : ∀ d ∈ ds', d.cell_index < t.cells.length := by
        intro d hd
        exact hin d (hperm.mem_iff.mpr hd)
      obtain ⟨t1, h1, hlen1, hchar1⟩ := apply_deltas_spec (ds.map (scaleDelta td)) t
        ((hmemmap ds).mp hin)
      obtain ⟨t2, h2, hlen2, hchar2⟩ := apply_deltas_spec (ds'.map (scaleDelta td)) t
        ((hmemmap ds').mp hin')
      have heq : t1 = t2 := by
        apply terrain_eq_of_getD
        · rw [hlen1, hlen2]
        · intro i hi
          have hi' : i < t.cells.length := by rw [← hlen1]; exact hi
          obtain ⟨a1, b1, c1, d1⟩ := hchar1 i hi'
          obtain ⟨a2, b2, c2, d2⟩ := hchar2 i hi'
          apply cell_eq_of_fields
          · rw [c1, c2]
          · rw [a1, a2, heightContribution_scale, heightContribution_scale,
              heightContribution_perm ds ds' i hperm]
          · rw [b1, b2, depthContribution_scale, depthContribution_scale,
              depthContribution_perm ds ds' i hperm]
          · rw [d1, d2]
      show t.apply_deltas (ds.map (scaleDelta td)) = t.apply_deltas (ds'.map (scaleDelta td))
      rw [h1, h2, heq]
    · have hin' : ¬ ∀ d ∈ ds', d.cell_index < t.cells.length := by
        intro hc
        exact hin (fun d hd => hc d (hperm.mem_iff.mp hd))
      have e1 : t.apply_deltas (ds.map (scaleDelta td)) = none := by
        rcases ho : t.apply_deltas (ds.map (scaleDelta td)) with _ | t1
        · rfl
        · exfalso
          apply hin
          apply (hmemmap ds).mpr
          apply (apply_deltas_isSome_iff (ds.map (scaleDelta td)) t).mp
          rw [ho]
          rfl
      have e2 : t.apply_deltas (ds'.map (scaleDelta td)) = none := by
        rcases ho : t.apply_deltas (ds'.map (scaleDelta td)) with _ | t2
        · rfl
        · exfalso
          apply hin'
          apply (hmemmap ds').mpr
          apply (apply_deltas_isSome_iff (ds'.map (scaleDelta td)) t).mp
          rw [ho]
          rfl
      show t.apply_deltas (ds.map (scaleDelta td)) = t.apply_deltas (ds'.map (scaleDelta td))
      rw [e1, e2]
  · intro hin
    obtain ⟨t1, h1, hlen1, hchar1⟩ := apply_deltas_spec (ds.map (scaleDelta td)) t
      ((hmemmap ds).mp hin)
    refine ⟨t1, h1, hlen1, ?_⟩
    intro i hi
    obtain ⟨a1, b1, _, _⟩ := hchar1 i hi
    rw [a1, b1, heightContribution_scale, depthContribution_scale]
    exact ⟨rfl, rfl⟩

/-- C7 witness: two deltas applied in both orders to a two-cell terrain. -/
theorem C7_step_additive_order_independent_witness :
    ([TerrainDelta.mk 0 1 2, TerrainDelta.mk 1 3 4].Perm
      [TerrainDelta.mk 1 3 4, TerrainDelta.mk 0 1 2]) ∧
    (FlowEngine.step { cells := [dummyCell, dummyCell] }
        [TerrainDelta.mk 0 1 2, TerrainDelta.mk 1 3 4] 2 =
      FlowEngine.step { cells := [dummyCell, dummyCell] }
        [TerrainDelta.mk 1 3 4, TerrainDelta.mk 0 1 2] 2 ∧
    ((∀ d ∈ [TerrainDelta.mk 0 1 2, TerrainDelta.mk 1 3 4],
        d.cell_index < ({ cells := [dummyCell, dummyCell] } : Terrain).cells.length) →
      ∃ t', FlowEngine.step { cells := [dummyCell, dummyCell] }
          [TerrainDelta.mk 0 1 2, TerrainDelta.mk 1 3 4] 2 = some t' ∧
        t'.cells.length = ({ cells := [dummyCell, dummyCell] } : Terrain).cells.length ∧
        ∀ i, i < ({ cells := [dummyCell, dummyCell] } : Terrain).cells.length →
          (t'.cells.getD i dummyCell).height =
            (({ cells := [dummyCell, dummyCell] } : Terrain).cells.getD i dummyCell).height +
              heightContribution [TerrainDelta.mk 0 1 2, TerrainDelta.mk 1 3 4] i * 2 ∧
          (t'.cells.getD i dummyCell).depth =
            (({ cells := [dummyCell, dummyCell] } : Terrain).cells.getD i dummyCell).depth +
              depthContribution [TerrainDelta.mk 0 1 2, TerrainDelta.mk 1 3 4] i * 2)) :=
  ⟨List.Perm.swap (TerrainDelta.mk 1 3 4) (TerrainDelta.mk 0 1 2) [],
   C7_step_additive_order_independent { cells := [dummyCell, dummyCell] }
     [TerrainDelta.mk 0 1 2, TerrainDelta.mk 1 3 4]
     [TerrainDelta.mk 1 3 4, TerrainDelta.mk 0 1 2] 2
     (List.Perm.swap (TerrainDelta.mk 1 3 4) (TerrainDelta.mk 0 1 2) [])⟩

lemma squared_euclidean_comm (p q : Point) : squared_euclidean p q = squared_euclidean q p := by
  simp only [squared_euclidean]
  ring

lemma point_has_space_iff (g : PointGenerator) (p : Point) :
    g.point_has_space p = true ↔
      ∀ q ∈ g.kd_tree, ¬ squared_euclidean p q < g.min_spacing_sq := by
  simp [PointGenerator.point_has_space, kdWithin, List.isEmpty_iff, List.filter_eq_nil]

lemma next_loop_spec (g : PointGenerator) :
    ∀ (queue : List Point) (oracle : List (List Point)),
      ((g.next_loop queue oracle).2.kd_tree =
        ((g.next_loop queue oracle).1.toList) ++ g.kd_tree) ∧
      ((g.next_loop queue oracle).2.min_spacing_sq = g.min_spacing_sq) ∧
      ((g.next_loop queue oracle).2.init = g.init) ∧
      (∀ np, (g.next_loop queue oracle).1 = some np →
        ∀ q ∈ g.kd_tree, ¬ squared_euclidean np q < g.min_spacing_sq) := by
  intro queue
  induction queue with
  | nil =>
    intro oracle
    simp [PointGenerator.next_loop]
  | cons anchor rest ih =>
    intro oracle
    rcases hfind : g.gen_neighbor_point (oracle.headD []) with _ | np
    · have hrec : g.next_loop (anchor :: rest) oracle = g.next_loop rest oracle.tail := by
        simp only [PointGenerator.next_loop]
        rw [hfind]
      rw [hrec]
      exact ih oracle.tail
    · have hfound : (g.point_in_bounds np && g.point_has_space np) = true := by
        have h := hfind
        simp only [PointGenerator.gen_neighbor_point] at h
        have h2 := List.find?_some h
        simpa using h2
      have hspace : g.point_has_space np = true := ((Bool.and_eq_true _ _).mp hfound).2
      have hstep : g.next_loop (anchor :: rest) oracle =
          (some np, { g with point_queue := np :: anchor :: rest,
                             kd_tree := np :: g.kd_tree }) := by
        simp only [PointGenerator.next_loop]
        rw [hfind]
      rw [hstep]
      refine ⟨rfl, rfl, rfl, ?_⟩
      intro np' hnp' q hq
      have heqn : np = np' := by simpa using hnp'
      rw [← heqn]
      exact (point_has_space_iff g np).mp hspace q hq

lemma next_point_preserves (msq : ℚ) (g : PointGenerator) (oracle : List (List Point))
    (hmsq : g.min_spacing_sq = msq)
    (hinit : g.init = false → g.kd_tree = [])
    (hpw : g.kd_tree.Pairwise (fun p q => msq ≤ squared_euclidean p q)) :
    ((g.next_point oracle).2.min_spacing_sq = msq) ∧
    ((g.next_point oracle).2.init = false → (g.next_point oracle).2.kd_tree = []) ∧
    ((g.next_point oracle).2.kd_tree.Pairwise (fun p q => msq ≤ squared_euclidean p q)) ∧
    ((g.next_point oracle).2.kd_tree = ((g.next_point oracle).1.toList) ++ g.kd_tree) := by
  by_cases hi : g.init = true
  · have hnp : g.next_point oracle = g.next_loop g.point_queue oracle := by
      simp [PointGenerator.next_point, hi, PointGenerator.gen_next_point]
    obtain ⟨htree, hms, hinit2, hspace⟩ := next_loop_spec g g.point_queue oracle
    rw [hnp]
    refine ⟨by rw [hms, hmsq], ?_, ?_, htree⟩
    · intro hfalse
      rw [hinit2, hi] at hfalse
      cases hfalse
    · rw [htree]
      rcases hr : (g.next_loop g.point_queue oracle).1 with _ | np
      · simpa using hpw
      · simp only [Option.toList_some, List.singleton_append]
        refine List.Pairwise.cons ?_ hpw
        intro q hq
        have := hspace np hr q hq
        rw [hmsq] at this
        exact le_of_not_lt this
  · have hi' : g.init = false := by simpa using hi
    have ht0 : g.kd_tree = [] := hinit hi'
    have hnp : g.next_point oracle = (some (g.gen_init_point).1, (g.gen_init_point).2) := by
      simp [PointGenerator.next_point, hi']
    rw [hnp]
    constructor
    · simpa [PointGenerator.gen_init_point] using hmsq
    constructor
    · simp [PointGenerator.gen_init_point]
    constructor
    · simp [PointGenerator.gen_init_point, ht0]
    · simp [PointGenerator.gen_init_point, ht0]

lemma runGen_invariant (msq : ℚ) :
    ∀ (oracles : List (List (List Point))) (g : PointGenerator),
      g.min_spacing_sq = msq →
      (g.init = false → g.kd_tree = []) →
      g.kd_tree.Pairwise (fun p q => msq ≤ squared_euclidean p q) →
      ((g.runGen oracles).2.kd_tree.Pairwise (fun p q => msq ≤ squared_euclidean p q)) ∧
      ((g.runGen oracles).2.kd_tree = (g.runGen oracles).1.reverse ++ g.kd_tree) := by
  intro oracles
  induction oracles with
  | nil =>
    intro g _ _ h3
    exact ⟨h3, by simp [PointGenerator.runGen]⟩
  | cons oracle oracles ih =>
    intro g h1 h2 h3
    obtain ⟨hm, hi, hp, ht⟩ := next_point_preserves msq g oracle h1 h2 h3
    obtain ⟨hp', ht'⟩ := ih (g.next_point oracle).2 hm hi hp
    constructor
    · simpa [PointGenerator.runGen] using hp'
    · simp only [PointGenerator.runGen]
      rw [ht', ht]
      rcases (g.next_point oracle).1 with _ | p
      · simp
      · simp

/-- C4: every pair of points emitted by the point generator is at squared
distance at least `min_spacing²` (so their Euclidean distance is at least
`min_spacing`), because a candidate is accepted only when the proximity index,
which holds every previously emitted point, has no point strictly within
squared distance `min_spacing_sq` of it. -/
theorem C4_spacing_invariant (x_bounds y_bounds : Bounds) (min_spacing : ℚ)
    (oracles : List (List (List Point))) :
    (((PointGenerator.new x_bounds y_bounds min_spacing).runGen oracles).1.Pairwise
      (fun p q => min_spacing * min_spacing ≤ squared_euclidean p q)) ∧
    (∀ (g : PointGenerator) (p : Point),
      g.point_has_space p = true ↔
        ∀ q ∈ g.kd_tree, ¬ squared_euclidean p q < g.min_spacing_sq) := by
  constructor
  · obtain ⟨hp, ht⟩ := runGen_invariant (min_spacing * min_spacing) oracles
      (PointGenerator.new x_bounds y_bounds min_spacing) rfl (fun _ => rfl)
      (by simp [PointGenerator.new])
    rw [ht] at hp
    have hempty : (PointGenerator.new x_bounds y_bounds min_spacing).kd_tree = [] := rfl
    rw [hempty, List.append_nil] at hp
    have hflip := (List.pairwise_reverse).mp hp
    refine hflip.imp ?_
    intro p q h
    rwa [squared_euclidean_comm]
  · exact point_has_space_iff

/-- The `depth_delta` computed for one accepted flow neighbor inside
`calc_flow_deltas`: `(weight / total_weight) * total_available * flow_rate`. -/
def flowDepthDelta (f : DefaultFlow) (flow_agg : TransferWeight)
    (p : Nat × TransferWeight) : ℚ :=
  (p.2.weight / flow_agg.weight) * flow_agg.available * f.flow_rate

/-- Total positive outflow of a flow-weight list: the sum of the per-neighbor
depth deltas that are strictly positive. -/
def positiveFlowSum (f : DefaultFlow) (flow_agg : TransferWeight)
    (ws : List (Nat × TransferWeight)) : ℚ :=
  ((ws.filter (fun p => decide (0 < flowDepthDelta f flow_agg p))).map
    (flowDepthDelta f flow_agg)).sum

lemma positiveFlowSum_cons (f : DefaultFlow) (agg : TransferWeight)
    (p : Nat × TransferWeight) (ws : List (Nat × TransferWeight)) :
    positiveFlowSum f agg (p :: ws) =
      (if 0 < flowDepthDelta f agg p then flowDepthDelta f agg p else 0) +
        positiveFlowSum f agg ws := by
  simp only [positiveFlowSum, List.filter_cons]
  by_cases h : 0 < flowDepthDelta f agg p
  · simp [h]
  · simp [h]

lemma positiveFlowSum_eq_zero (f : DefaultFlow) (agg : TransferWeight)
    (ws : List (Nat × TransferWeight))
    (h : ws.filter (fun p => decide (0 < flowDepthDelta f agg p)) = []) :
    positiveFlowSum f agg ws = 0 := by
  simp [positiveFlowSum, h]

lemma flowFold_spec (f : DefaultFlow) (ci : Nat) (agg : TransferWeight) :
    ∀ (ws : List (Nat × TransferWeight)) (s0 : Option TerrainDelta)
      (m0 : List (Nat × TerrainDelta)),
      ((ws.map Prod.fst).Nodup) →
      (∀ p ∈ ws, ∀ q ∈ m0, p.1 ≠ q.1) →
      (ws.foldl (flowStep f ci agg) (s0, m0)).2 =
        m0 ++ (ws.filter (fun p => decide (0 < flowDepthDelta f agg p))).map
          (fun p => (p.1, { cell_index := p.1, height_delta := 0,
                            depth_delta := flowDepthDelta f agg p })) ∧
      (ws.foldl (flowStep f ci agg) (s0, m0)).1 =
        (if (ws.filter (fun p => decide (0 < flowDepthDelta f agg p))) = [] then s0
         else some { cell_index := (s0.getD (TerrainDelta.new ci)).cell_index,
                     height_delta := (s0.getD (TerrainDelta.new ci)).height_delta -
                       positiveFlowSum f agg ws * f.flow_erosion_rate,
                     depth_delta := (s0.getD (TerrainDelta.new ci)).depth_delta -
                       positiveFlowSum f agg ws }) := by
  intro ws
  induction ws with
  | nil =>
    intro s0 m0 _ _
    simp
  | cons p ws ih =>
    intro s0 m0 hnd hdisj
    rw [List.map_cons] at hnd
    obtain ⟨hpnot, hnd'⟩ := List.nodup_cons.mp hnd
    by_cases hpos : 0 < flowDepthDelta f agg p
    · have hany : m0.any (fun q => q.1 == p.1) = false := by
        rw [List.any_eq_false]
        intro q hq
        simpa using (hdisj p (List.mem_cons_self p ws) q hq).symm
      have hstep : flowStep f ci agg (s0, m0) p =
          (some { cell_index := (s0.getD (TerrainDelta.new ci)).cell_index,
                  height_delta := (s0.getD (TerrainDelta.new ci)).height_delta -
                    flowDepthDelta f agg p * f.flow_erosion_rate,
                  depth_delta := (s0.getD (TerrainDelta.new ci)).depth_delta -
                    flowDepthDelta f agg p },
           m0 ++ [(p.1, { cell_index := p.1, height_delta := 0,
                          depth_delta := flowDepthDelta f agg p })]) := by
        simp only [flowDepthDelta] at hpos
        simp only [flowStep, flowDepthDelta]
        rw [if_pos hpos]
        simp [upsertSelfDelta, upsertNeighborDelta, hany, TerrainDelta.new]
      have hdisj' : ∀ p' ∈ ws,
          ∀ q ∈ m0 ++ [(p.1, TerrainDelta.mk p.1 0 (flowDepthDelta f agg p))], p'.1 ≠ q.1 := by
        intro p' hp' q hq
        rcases List.mem_append.mp hq with hq | hq
        · exact hdisj p' (List.mem_cons_of_mem p hp') q hq
        · have hq2 : q = (p.1, TerrainDelta.mk p.1 0 (flowDepthDelta f agg p)) := by
            simpa using hq
          rw [hq2]
          intro hc
          have hc' : p'.1 = p.1 := hc
          apply hpnot
          rw [← hc']
          exact List.mem_map_of_mem Prod.fst hp'
      obtain ⟨ihm, ihs⟩ := ih
        (some { cell_index := (s0.getD (TerrainDelta.new ci)).cell_index,
                height_delta := (s0.getD (TerrainDelta.new ci)).height_delta -
                  flowDepthDelta f agg p * f.flow_erosion_rate,
                depth_delta := (s0.getD (TerrainDelta.new ci)).depth_delta -
                  flowDepthDelta f agg p })
        (m0 ++ [(p.1, { cell_index := p.1, height_delta := 0,
                        depth_delta := flowDepthDelta f agg p })])
        hnd' hdisj'
      rw [List.foldl_cons, hstep]
      constructor
      · rw [ihm]
        rw [List.filter_cons_of_pos (by simpa using hpos), List.map_cons]
        simp
      · rw [ihs]
        rw [List.filter_cons_of_pos (by simpa using hpos)]
        simp only [List.cons_ne_self, if_neg, reduceCtorEq, ne_eq, not_false_iff,
          List.cons_ne_nil, Option.getD_some]
        by_cases hnil : ws.filter (fun p => decide (0 < flowDepthDelta f agg p)) = []
        · rw [if_pos hnil]
          have hz : positiveFlowSum f agg ws = 0 := positiveFlowSum_eq_zero f agg ws hnil
          rw [positiveFlowSum_cons, if_pos hpos, hz]
          simp only [TerrainDelta.mk.injEq, Option.some.injEq]
          refine ⟨trivial, by ring, by ring⟩
        · rw [if_neg hnil]
          rw [positiveFlowSum_cons, if_pos hpos]
          simp only [TerrainDelta.mk.injEq, Option.some.injEq]
          refine ⟨trivial, by ring, by ring⟩
    · have hstep : flowStep f ci agg (s0, m0) p = (s0, m0) := by
        simp only [flowDepthDelta] at hpos
        simp only [flowStep]
        rw [if_neg hpos]
      have hdisj' : ∀ p' ∈ ws, ∀ q ∈ m0, p'.1 ≠ q.1 := by
        intro p' hp' q hq
        exact hdisj p' (List.mem_cons_of_mem p hp') q hq
      obtain ⟨ihm, ihs⟩ := ih s0 m0 hnd' hdisj'
      rw [List.foldl_cons, hstep]
      constructor
      · rw [ihm, List.filter_cons_of_neg (by simpa using hpos)]
      · rw [ihs, List.filter_cons_of_neg (by simpa using hpos),
          positiveFlowSum_cons, if_neg hpos, zero_add]

/-- C2: in the flow-delta distribution every accepted neighbor with positive
`depth_delta = (weight/total_weight) * total_available * flow_rate` gets a
delta record increasing its depth by exactly that amount and leaving its
height untouched; the source cell's delta decreases its depth by the sum of
those amounts and its height by `flow_erosion_rate` times that sum; for a
cell with exactly one downhill neighbor the neighbor's depth gain equals the
source's depth loss; and with no erosion neighbors and no precipitation the
cell's emitted deltas are exactly these records. -/
theorem C2_flow_delta_distribution (f : DefaultFlow) (ci : Nat)
    (ws : List (Nat × TransferWeight)) (agg : TransferWeight)
    (terrain : Terrain) (cell : Cell)
    (hnd : (ws.map Prod.fst).Nodup)
    (hws : f.calc_flow_weights terrain cell = ws)
    (hero : f.calc_erosion_weights terrain cell = [])
    (hagg : agg = aggregate_transfer_weights (ws.map Prod.snd)) :
    ((ws.foldl (flowStep f ci agg) (none, [])).2 =
      (ws.filter (fun p => decide (0 < flowDepthDelta f agg p))).map
        (fun p => (p.1, TerrainDelta.mk p.1 0 (flowDepthDelta f agg p)))) ∧
    ((ws.foldl (flowStep f ci agg) (none, [])).1 =
      (if (ws.filter (fun p => decide (0 < flowDepthDelta f agg p))) = [] then none
       else some (TerrainDelta.mk ci (-(positiveFlowSum f agg ws * f.flow_erosion_rate))
         (-(positiveFlowSum f agg ws))))) ∧
    (∀ n w, ws = [(n, w)] → 0 < flowDepthDelta f agg (n, w) →
      (ws.foldl (flowStep f ci agg) (none, [])).2 =
        [(n, TerrainDelta.mk n 0 (flowDepthDelta f agg (n, w)))] ∧
      (ws.foldl (flowStep f ci agg) (none, [])).1 =
        some (TerrainDelta.mk ci (-(flowDepthDelta f agg (n, w) * f.flow_erosion_rate))
          (-(flowDepthDelta f agg (n, w))))) ∧
    (f.calc_flow_deltas ci cell terrain none =
      ((ws.foldl (flowStep f ci agg) (none, [])).2.map Prod.snd ++
        (ws.foldl (flowStep f ci agg) (none, [])).1.toList)) := by
  obtain ⟨hm, hs⟩ := flowFold_spec f ci agg ws none [] hnd (by intro p _ q hq; cases hq)
  refine ⟨?_, ?_, ?_, ?_⟩
  · rw [hm]
    simp
  · rw [hs]
    by_cases hnil : ws.filter (fun p => decide (0 < flowDepthDelta f agg p)) = []
    · rw [if_pos hnil, if_pos hnil]
    · rw [if_neg hnil, if_neg hnil]
      simp [TerrainDelta.new, zero_sub]
  · intro n w hws2 hp
    subst hws2
    constructor
    · rw [hm]
      rw [List.filter_cons_of_pos (by simpa using hp)]
      simp
    · rw [hs]
      rw [List.filter_cons_of_pos (by simpa using hp)]
      have hsum : positiveFlowSum f agg [(n, w)] = flowDepthDelta f agg (n, w) := by
        rw [positiveFlowSum_cons, if_pos hp]
        simp [positiveFlowSum]
      rw [hsum]
      simp [TerrainDelta.new, zero_sub]
  · simp only [DefaultFlow.calc_flow_deltas, hws, hero, List.map_nil, List.foldl_nil, ← hagg]

/-- C2 witness: the theorem applied to the two-cell fixture, whose only flow
neighbor is accepted with depth delta 1/2. -/
theorem C2_flow_delta_distribution_witness :
    ((witnessWeights.map Prod.fst).Nodup) ∧
    (witnessFlow.calc_flow_weights witnessTerrain witnessCellA = witnessWeights) ∧
    (witnessFlow.calc_erosion_weights witnessTerrain witnessCellA = []) ∧
    (witnessAgg = aggregate_transfer_weights (witnessWeights.map Prod.snd)) ∧
    (((witnessWeights.foldl (flowStep witnessFlow 0 witnessAgg) (none, [])).2 =
      (witnessWeights.filter (fun p => decide (0 < flowDepthDelta witnessFlow witnessAgg p))).map
        (fun p => (p.1, TerrainDelta.mk p.1 0 (flowDepthDelta witnessFlow witnessAgg p)))) ∧
    ((witnessWeights.foldl (flowStep witnessFlow 0 witnessAgg) (none, [])).1 =
      (if (witnessWeights.filter
            (fun p => decide (0 < flowDepthDelta witnessFlow witnessAgg p))) = [] then none
       else some (TerrainDelta.mk 0
         (-(positiveFlowSum witnessFlow witnessAgg witnessWeights * witnessFlow.flow_erosion_rate))
         (-(positiveFlowSum witnessFlow witnessAgg witnessWeights))))) ∧
    (∀ n w, witnessWeights = [(n, w)] → 0 < flowDepthDelta witnessFlow witnessAgg (n, w) →
      (witnessWeights.foldl (flowStep witnessFlow 0 witnessAgg) (none, [])).2 =
        [(n, TerrainDelta.mk n 0 (flowDepthDelta witnessFlow witnessAgg (n, w)))] ∧
      (witnessWeights.foldl (flowStep witnessFlow 0 witnessAgg) (none, [])).1 =
        some (TerrainDelta.mk 0
          (-(flowDepthDelta witnessFlow witnessAgg (n, w) * witnessFlow.flow_erosion_rate))
          (-(flowDepthDelta witnessFlow witnessAgg (n, w))))) ∧
    (witnessFlow.calc_flow_deltas 0 witnessCellA witnessTerrain none =
      ((witnessWeights.foldl (flowStep witnessFlow 0 witnessAgg) (none, [])).2.map Prod.snd ++
        (witnessWeights.foldl (flowStep witnessFlow 0 witnessAgg) (none, [])).1.toList))) :=
  ⟨by simp [witnessWeights],
   by
     norm_num [witnessFlow, witnessTerrain, witnessCellA, witnessCellB, witnessWeights,
       DefaultFlow.calc_flow_weights, calc_transfer_weights_with,
       DefaultFlow.calc_flow_weight, Terrain.get_cell, min_def,
       List.filterMap_cons, List.filterMap_nil],
   by
     norm_num [witnessFlow, witnessTerrain, witnessCellA, witnessCellB,
       DefaultFlow.calc_erosion_weights, calc_transfer_weights_with,
       DefaultFlow.calc_erosion_weight, Terrain.get_cell,
       List.filterMap_cons, List.filterMap_nil],
   rfl,
   C2_flow_delta_distribution witnessFlow 0 witnessWeights witnessAgg witnessTerrain witnessCellA
     (by simp [witnessWeights])
     (by
       norm_num [witnessFlow, witnessTerrain, witnessCellA, witnessCellB, witnessWeights,
         DefaultFlow.calc_flow_weights, calc_transfer_weights_with,
         DefaultFlow.calc_flow_weight, Terrain.get_cell, min_def,
         List.filterMap_cons, List.filterMap_nil])
     (by
       norm_num [witnessFlow, witnessTerrain, witnessCellA, witnessCellB,
         DefaultFlow.calc_erosion_weights, calc_transfer_weights_with,
         DefaultFlow.calc_erosion_weight, Terrain.get_cell,
         List.filterMap_cons, List.filterMap_nil])
     rfl⟩

lemma calc_transfer_weights_keys (terrain : Terrain) (cell : Cell)
    (calcWeight : Cell → Cell → NeighborData → Option TransferWeight) :
    ∀ p ∈ calc_transfer_weights_with terrain cell calcWeight,
      p.1 ∈ cell.neighbor_data.map NeighborData.index := by
  intro p hp
  simp only [calc_transfer_weights_with, List.mem_filterMap] at hp
  obtain ⟨nd, hnd, heq⟩ := hp
  rcases h2 : calcWeight cell (terrain.get_cell nd.index) nd with _ | tw
  · rw [h2] at heq
    cases heq
  · rw [h2] at heq
    have heq2 : (nd.index, tw) = p := by simpa using heq
    rw [← heq2]
    exact List.mem_map_of_mem NeighborData.index hnd

lemma upsertNeighborDelta_OK (m : List (Nat × TerrainDelta)) (i : Nat)
    (upd : TerrainDelta → TerrainDelta)
    (hupd : ∀ d, (upd d).cell_index = d.cell_index)
    (allowed : List Nat) (hi : i ∈ allowed)
    (hm : ∀ q ∈ m, q.2.cell_index = q.1 ∧ q.1 ∈ allowed) :
    ∀ q ∈ upsertNeighborDelta m i upd, q.2.cell_index = q.1 ∧ q.1 ∈ allowed := by
  intro q hq
  unfold upsertNeighborDelta at hq
  by_cases hc : m.any (fun p => p.1 == i) = true
  · rw [if_pos hc] at hq
    obtain ⟨q0, hq0, heq⟩ := List.mem_map.mp hq
    by_cases hqi : q0.1 = i
    · rw [if_pos (by simpa using hqi)] at heq
      rw [← heq]
      exact ⟨by rw [hupd]; exact (hm q0 hq0).1, (hm q0 hq0).2⟩
    · rw [if_neg (by simpa using hqi)] at heq
      rw [← heq]
      exact hm q0 hq0
  · rw [if_neg hc] at hq
    rcases List.mem_append.mp hq with hq | hq
    · exact hm q hq
    · have hq2 : q = (i, upd (TerrainDelta.new i)) := by simpa using hq
      rw [hq2]
      exact ⟨by rw [hupd]; rfl, hi⟩

lemma upsertSelfDelta_OK (s : Option TerrainDelta) (ci : Nat)
    (upd : TerrainDelta → TerrainDelta)
    (hupd : ∀ d, (upd d).cell_index = d.cell_index)
    (hs : ∀ d, s = some d → d.cell_index = ci) :
    ∀ d, upsertSelfDelta s ci upd = some d → d.cell_index = ci := by
  intro d hd
  unfold upsertSelfDelta at hd
  have hd2 : d = upd (s.getD (TerrainDelta.new ci)) := by
    simpa using hd.symm
  rw [hd2, hupd]
  rcases s with _ | d0
  · rfl
  · simpa using hs d0 rfl

lemma flowStep_OK (f : DefaultFlow) (ci : Nat) (agg : TransferWeight)
    (allowed : List Nat) (st : Option TerrainDelta × List (Nat × TerrainDelta))
    (p : Nat × TransferWeight) (hp : p.1 ∈ allowed)
    (hst : deltaStateOK ci allowed st) :
    deltaStateOK ci allowed (flowStep f ci agg st p) := by
  unfold flowStep
  by_cases hpos : (p.2.weight / agg.weight) * agg.available * f.flow_rate > 0
  · rw [if_pos hpos]
    constructor
    · dsimp only
      exact upsertSelfDelta_OK _ _ _ (fun d => rfl) hst.1
    · dsimp only
      refine upsertNeighborDelta_OK _ _ _ ?_ allowed hp hst.2
      intro d
      rfl
  · rw [if_neg hpos]
    exact hst

lemma erosionStep_OK (f : DefaultFlow) (ci : Nat) (agg : TransferWeight)
    (allowed : List Nat) (st : Option TerrainDelta × List (Nat × TerrainDelta))
    (p : Nat × TransferWeight) (hp : p.1 ∈ allowed)
    (hst : deltaStateOK ci allowed st) :
    deltaStateOK ci allowed (erosionStep f ci agg st p) := by
  unfold erosionStep
  by_cases hpos : (p.2.weight / agg.weight) * agg.available * f.erosion_rate > 0
  · rw [if_pos hpos]
    constructor
    · dsimp only
      exact upsertSelfDelta_OK _ _ _ (fun d => rfl) hst.1
    · dsimp only
      refine upsertNeighborDelta_OK _ _ _ ?_ allowed hp hst.2
      intro d
      rfl
  · rw [if_neg hpos]
    exact hst

lemma foldl_flowStep_OK (f : DefaultFlow) (ci : Nat) (agg : TransferWeight)
    (allowed : List Nat) :
    ∀ (ws : List (Nat × TransferWeight)) (st : Option TerrainDelta × List (Nat × TerrainDelta)),
      (∀ p ∈ ws, p.1 ∈ allowed) → deltaStateOK ci allowed st →
      deltaStateOK ci allowed (ws.foldl (flowStep f ci agg) st) := by
  intro ws
  induction ws with
  | nil => intro st _ hst; exact hst
  | cons p ws ih =>
    intro st hws hst
    rw [List.foldl_cons]
    exact ih _ (fun p' hp' => hws p' (List.mem_cons_of_mem p hp'))
      (flowStep_OK f ci agg allowed st p (hws p (List.mem_cons_self p ws)) hst)

lemma foldl_erosionStep_OK (f : DefaultFlow) (ci : Nat) (agg : TransferWeight)
    (allowed : List Nat) :
    ∀ (ws : List (Nat × TransferWeight)) (st : Option TerrainDelta × List (Nat × TerrainDelta)),
      (∀ p ∈ ws, p.1 ∈ allowed) → deltaStateOK ci allowed st →
      deltaStateOK ci allowed (ws.foldl (erosionStep f ci agg) st) := by
  intro ws
  induction ws with
  | nil => intro st _ hst; exact hst
  | cons p ws ih =>
    intro st hws hst
    rw [List.foldl_cons]
    exact ih _ (fun p' hp' => hws p' (List.mem_cons_of_mem p hp'))
      (erosionStep_OK f ci agg allowed st p (hws p (List.mem_cons_self p ws)) hst)

lemma outList_cell_index (ci : Nat) (allowed : List Nat)
    (st : Option TerrainDelta × List (Nat × TerrainDelta))
    (hst : deltaStateOK ci allowed st) :
    ∀ d ∈ st.2.map Prod.snd ++ st.1.toList, d.cell_index = ci ∨ d.cell_index ∈ allowed := by
  intro d hd
  rcases List.mem_append.mp hd with hd | hd
  · obtain ⟨q, hq, heq⟩ := List.mem_map.mp hd
    right
    rw [← heq, (hst.2 q hq).1]
    exact (hst.2 q hq).2
  · left
    rcases ho : st.1 with _ | d0
    · rw [ho] at hd
      cases hd
    · rw [ho] at hd
      have hdd : d = d0 := by simpa using hd
      rw [hdd]
      exact hst.1 d0 ho

lemma precipStep_OK (ci : Nat) (allowed : List Nat)
    (st : Option TerrainDelta × List (Nat × TerrainDelta)) (amount : ℚ)
    (hst : deltaStateOK ci allowed st) :
    deltaStateOK ci allowed
      (upsertSelfDelta st.1 ci (fun d => { d with depth_delta := d.depth_delta + amount }),
       st.2) := by
  refine ⟨?_, ?_⟩
  · dsimp only
    exact upsertSelfDelta_OK _ _ _ (fun d => rfl) hst.1
  · dsimp only
    exact hst.2

lemma calc_flow_deltas_cell_index (f : DefaultFlow) (ci : Nat) (cell : Cell)
    (terrain : Terrain) (pr : Option ℚ) :
    ∀ d ∈ f.calc_flow_deltas ci cell terrain pr,
      d.cell_index = ci ∨ d.cell_index ∈ cell.neighbor_data.map NeighborData.index := by
  have h2 : deltaStateOK ci (cell.neighbor_data.map NeighborData.index)
      ((f.calc_erosion_weights terrain cell).foldl
        (erosionStep f ci (aggregate_transfer_weights
          ((f.calc_erosion_weights terrain cell).map Prod.snd)))
        ((f.calc_flow_weights terrain cell).foldl
          (flowStep f ci (aggregate_transfer_weights
            ((f.calc_flow_weights terrain cell).map Prod.snd))) (none, []))) := by
    apply foldl_erosionStep_OK
    · exact fun p hp => calc_transfer_weights_keys terrain cell _ p hp
    · apply foldl_flowStep_OK
      · exact fun p hp => calc_transfer_weights_keys terrain cell _ p hp
      · exact ⟨fun d hc => (nomatch hc), fun q hq => (nomatch hq)⟩
  intro d hd
  rcases pr with _ | amount
  · exact outList_cell_index ci _ _ h2 d hd
  · exact outList_cell_index ci _ _ (precipStep_OK ci _ _ amount h2) d hd

lemma do_flow_cell_index (f : DefaultFlow) (t : Terrain) (pr : Nat → Option ℚ)
    (hwf : Terrain.wf t) :
    ∀ d ∈ f.do_flow t pr, d.cell_index < t.cells_len := by
  intro d hd
  simp only [DefaultFlow.do_flow, List.mem_flatMap, List.mem_range] at hd
  obtain ⟨ci, hci, hd⟩ := hd
  have hcilen : ci < t.cells.length := hci
  rcases List.mem_append.mp hd with hd | hd
  · rcases calc_flow_deltas_cell_index f ci (t.get_cell ci) t (pr ci) d hd with h | h
    · rw [h]
      exact hcilen
    · obtain ⟨nd, hnd, hidx⟩ := List.mem_map.mp h
      have hcell : t.get_cell ci ∈ t.cells := by
        rw [Terrain.get_cell, List.getD_eq_getElem t.cells dummyCell hcilen]
        exact List.getElem_mem hcilen
      have hlt := hwf _ hcell nd hnd
      rw [← hidx]
      exact hlt
  · have hd2 : d = TerrainDelta.mk ci
        (if (t.get_cell ci).height < 0 then -0.5 * (t.get_cell ci).height else 0)
        (if (t.get_cell ci).depth > 1.0 then -0.5 * ((t.get_cell ci).depth - 1.0) else 0) := by
      simpa [DefaultFlow.calc_sink_deltas] using hd
    rw [hd2]
    exact hcilen

/-- C10: every delta produced by `DefaultFlow` over a well-formed terrain
(each cached neighbor index a valid cell index, as the triangulation-derived
build guarantees) targets a cell index below the cell count - each delta
targets the processed cell itself or one of its recorded neighbors - so the
engine's apply phase succeeds and the out-of-bounds panic branch is
unreachable. -/
theorem C10_flow_deltas_in_bounds (f : DefaultFlow) (t : Terrain) (pr : Nat → Option ℚ)
    (td : ℚ) (hwf : Terrain.wf t) :
    (∀ d ∈ f.do_flow t pr, d.cell_index < t.cells_len) ∧
    (FlowEngine.step t (f.do_flow t pr) td).isSome = true := by
  have h1 := do_flow_cell_index f t pr hwf
  refine ⟨h1, ?_⟩
  show (t.apply_deltas ((f.do_flow t pr).map (scaleDelta td))).isSome = true
  rw [apply_deltas_isSome_iff]
  intro d hd
  obtain ⟨d0, hd0, heq⟩ := List.mem_map.mp hd
  rw [← heq]
  exact h1 d0 hd0

/-- C10 witness: the theorem applied to the two-cell fixture terrain with no
precipitation and unit time scale. -/
theorem C10_flow_deltas_in_bounds_witness :
    (Terrain.wf witnessTerrain) ∧
    ((∀ d ∈ witnessFlow.do_flow witnessTerrain (fun _ => none),
        d.cell_index < witnessTerrain.cells_len) ∧
     (FlowEngine.step witnessTerrain
        (witnessFlow.do_flow witnessTerrain (fun _ => none)) 1).isSome = true) :=
  ⟨by
     show ∀ c ∈ witnessTerrain.cells, ∀ nd ∈ c.neighbor_data,
       nd.index < witnessTerrain.cells.length
     decide,
   C10_flow_deltas_in_bounds witnessFlow witnessTerrain (fun _ => none) 1
     (by
       show ∀ c ∈ witnessTerrain.cells, ∀ nd ∈ c.neighbor_data,
         nd.index < witnessTerrain.cells.length
       decide)⟩

lemma setCellAt_length (l : List Cell) (i : Nat) (f : Cell → Cell) :
    (setCellAt l i f).length = l.length := by
  induction l generalizing i with
  | nil => rfl
  | cons c cs ih =>
    cases i with
    | zero => rfl
    | succ n => simp [setCellAt, ih]

lemma getD_setCellAt (l : List Cell) (k : Nat) (f : Cell → Cell) (i : Nat) :
    (setCellAt l k f).getD i dummyCell =
      if i = k ∧ k < l.length then f (l.getD i dummyCell) else l.getD i dummyCell := by
  induction l generalizing k i with
  | nil =>
    cases k <;> cases i <;> simp [setCellAt]
  | cons c cs ih =>
    cases k with
    | zero =>
      cases i with
      | zero => simp [setCellAt]
      | succ m => simp [setCellAt, List.getD_cons_succ]
    | succ n =>
      cases i with
      | zero => simp [setCellAt]
      | succ m =>
        simp only [setCellAt, List.getD_cons_succ, ih, List.length_cons]
        have hiff : (m = n ∧ n < cs.length) ↔ (m + 1 = n + 1 ∧ n + 1 < cs.length + 1) := by
          omega
        by_cases h : m = n ∧ n < cs.length
        · rw [if_pos h, if_pos (hiff.mp h)]
        · rw [if_neg h, if_neg (fun hc => h (hiff.mpr hc))]

lemma add_neighbor_cases (sqrtFn : ℚ → ℚ) (c : Cell) (j : Nat) (nloc : Point) :
    ((c.add_neighbor sqrtFn j nloc).neighbor_data =
        c.neighbor_data ++
          [NeighborData.mk j (sqrtFn (squared_euclidean c.location nloc))] ∧
      ∀ nd ∈ c.neighbor_data, nd.index ≠ j) ∨
    ((c.add_neighbor sqrtFn j nloc) = c ∧ ∃ nd ∈ c.neighbor_data, nd.index = j) := by
  unfold Cell.add_neighbor
  by_cases h : (c.neighbor_data.find? (fun nd => nd.index == j)).isNone = true
  · rw [if_pos h]
    left
    constructor
    · rfl
    · intro nd hnd hc
      rw [Option.isNone_iff_eq_none, List.find?_eq_none] at h
      have h3 := h nd hnd
      simp only [beq_iff_eq] at h3
      exact h3 hc
  · rw [if_neg h]
    right
    refine ⟨rfl, ?_⟩
    have h2 : (c.neighbor_data.find? (fun nd => nd.index == j)).isSome = true := by
      rcases ho : c.neighbor_data.find? (fun nd => nd.index == j) with _ | nd
      · exact absurd (by rw [ho]; rfl) h
      · rw [ho]
        rfl
    rw [List.find?_isSome] at h2
    obtain ⟨nd, hnd, hp⟩ := h2
    exact ⟨nd, hnd, by simpa using hp⟩

lemma add_neighbor_location (sqrtFn : ℚ → ℚ) (c : Cell) (j : Nat) (nloc : Point) :
    (c.add_neighbor sqrtFn j nloc).location = c.location := by
  unfold Cell.add_neighbor
  split
  · rfl
  · rfl

lemma add_neighbor_mono (sqrtFn : ℚ → ℚ) (c : Cell) (j : Nat) (nloc : Point)
    (nd : NeighborData) (h : nd ∈ c.neighbor_data) :
    nd ∈ (c.add_neighbor sqrtFn j nloc).neighbor_data := by
  rcases add_neighbor_cases sqrtFn c j nloc with ⟨hdata, _⟩ | ⟨heq, _⟩
  · rw [hdata]
    exact List.mem_append_left _ h
  · rw [heq]
    exact h

lemma calculate_neighbors_eq_foldl (sqrtFn : ℚ → ℚ) :
    ∀ (tris : List (Nat × Nat × Nat)) (cells : List Cell),
      Terrain.calculate_neighbors sqrtFn tris cells =
        (tris.flatMap trianglePairs).foldl (addNeighborPair sqrtFn) cells := by
  intro tris
  induction tris with
  | nil => intro cells; rfl
  | cons tri tris ih =>
    intro cells
    have h1 : Terrain.calculate_neighbors sqrtFn (tri :: tris) cells =
        Terrain.calculate_neighbors sqrtFn tris
          ((trianglePairs tri).foldl (addNeighborPair sqrtFn) cells) := rfl
    rw [h1, ih, List.cons_bind, List.foldl_append]

lemma addNeighborPair_length (sqrtFn : ℚ → ℚ) (cs : List Cell) (p : Nat × Nat) :
    (addNeighborPair sqrtFn cs p).length = cs.length := by
  unfold addNeighborPair
  exact setCellAt_length cs p.1 _

lemma addNeighborPair_location (sqrtFn : ℚ → ℚ) (cs : List Cell) (p : Nat × Nat) (i : Nat) :
    ((addNeighborPair sqrtFn cs p).getD i dummyCell).location =
      (cs.getD i dummyCell).location := by
  unfold addNeighborPair
  rw [getD_setCellAt]
  split
  · exact add_neighbor_location sqrtFn _ _ _
  · rfl

lemma addNeighborPair_mono (sqrtFn : ℚ → ℚ) (cs : List Cell) (p : Nat × Nat) (i : Nat)
    (nd : NeighborData) (h : nd ∈ (cs.getD i dummyCell).neighbor_data) :
    nd ∈ ((addNeighborPair sqrtFn cs p).getD i dummyCell).neighbor_data := by
  unfold addNeighborPair
  rw [getD_setCellAt]
  split
  · exact add_neighbor_mono sqrtFn _ _ _ nd h
  · exact h

lemma foldPairs_length (sqrtFn : ℚ → ℚ) :
    ∀ (ps : List (Nat × Nat)) (cs : List Cell),
      (ps.foldl (addNeighborPair sqrtFn) cs).length = cs.length := by
  intro ps
  induction ps with
  | nil => intro cs; rfl
  | cons p ps ih =>
    intro cs
    rw [List.foldl_cons, ih, addNeighborPair_length]

lemma foldPairs_location (sqrtFn : ℚ → ℚ) :
    ∀ (ps : List (Nat × Nat)) (cs : List Cell) (i : Nat),
      ((ps.foldl (addNeighborPair sqrtFn) cs).getD i dummyCell).location =
        (cs.getD i dummyCell).location := by
  intro ps
  induction ps with
  | nil => intro cs i; rfl
  | cons p ps ih =>
    intro cs i
    rw [List.foldl_cons, ih, addNeighborPair_location]

lemma foldPairs_mono (sqrtFn : ℚ → ℚ) :
    ∀ (ps : List (Nat × Nat)) (cs : List Cell) (i : Nat) (nd : NeighborData),
      nd ∈ (cs.getD i dummyCell).neighbor_data →
      nd ∈ ((ps.foldl (addNeighborPair sqrtFn) cs).getD i dummyCell).neighbor_data := by
  intro ps
  induction ps with
  | nil => intro cs i nd h; exact h
  | cons p ps ih =>
    intro cs i nd h
    rw [List.foldl_cons]
    exact ih _ i nd (addNeighborPair_mono sqrtFn cs p i nd h)

lemma addNeighborPair_adds (sqrtFn : ℚ → ℚ) (cs : List Cell) (p : Nat × Nat)
    (hp : p.1 < cs.length) :
    ∃ nd ∈ ((addNeighborPair sqrtFn cs p).getD p.1 dummyCell).neighbor_data,
      nd.index = p.2 := by
  unfold addNeighborPair
  rw [getD_setCellAt, if_pos ⟨rfl, hp⟩]
  rcases add_neighbor_cases sqrtFn (cs.getD p.1 dummyCell) p.2
      ((cs.getD p.2 dummyCell).location) with ⟨hdata, _⟩ | ⟨heq, hex⟩
  · rw [hdata]
    exact ⟨NeighborData.mk p.2 _, List.mem_append_right _ (List.mem_singleton_self _), rfl⟩
  · rw [heq]
    exact hex

lemma foldPairs_processed (sqrtFn : ℚ → ℚ) :
    ∀ (ps : List (Nat × Nat)) (cs : List Cell), ∀ p ∈ ps, p.1 < cs.length →
      ∃ nd ∈ ((ps.foldl (addNeighborPair sqrtFn) cs).getD p.1 dummyCell).neighbor_data,
        nd.index = p.2 := by
  intro ps
  induction ps with
  | nil => intro cs p hp; cases hp
  | cons q ps ih =>
    intro cs p hp hlen
    rw [List.foldl_cons]
    rcases List.mem_cons.mp hp with rfl | hp
    · obtain ⟨nd, hnd, hidx⟩ := addNeighborPair_adds sqrtFn cs p hlen
      exact ⟨nd, foldPairs_mono sqrtFn ps _ p.1 nd hnd, hidx⟩
    · exact ih _ p hp (by rw [addNeighborPair_length]; exact hlen)

lemma addNeighborPair_origin (sqrtFn : ℚ → ℚ) (ps0 : List (Nat × Nat)) (cs : List Cell)
    (p : Nat × Nat) (hp : p ∈ ps0)
    (hinv : ∀ i nd, nd ∈ (cs.getD i dummyCell).neighbor_data →
      (i, nd.index) ∈ ps0 ∧
      nd.distance = sqrtFn (squared_euclidean (cs.getD i dummyCell).location
        (cs.getD nd.index dummyCell).location)) :
    ∀ i nd, nd ∈ ((addNeighborPair sqrtFn cs p).getD i dummyCell).neighbor_data →
      (i, nd.index) ∈ ps0 ∧
      nd.distance = sqrtFn (squared_euclidean
        ((addNeighborPair sqrtFn cs p).getD i dummyCell).location
        ((addNeighborPair sqrtFn cs p).getD nd.index dummyCell).location) := by
  intro i nd hnd
  rw [addNeighborPair_location, addNeighborPair_location]
  have hnd2 := hnd
  unfold addNeighborPair at hnd2
  rw [getD_setCellAt] at hnd2
  by_cases hc : i = p.1 ∧ p.1 < cs.length
  · rw [if_pos hc] at hnd2
    rcases add_neighbor_cases sqrtFn (cs.getD i dummyCell) p.2
        ((cs.getD p.2 dummyCell).location) with ⟨hdata, _⟩ | ⟨heq, _⟩
    · rw [hdata] at hnd2
      rcases List.mem_append.mp hnd2 with hnd3 | hnd3
      · exact hinv i nd hnd3
      · have hnd4 : nd = NeighborData.mk p.2
            (sqrtFn (squared_euclidean (cs.getD i dummyCell).location
              (cs.getD p.2 dummyCell).location)) := by
          simpa using hnd3
        rw [hnd4]
        constructor
        · rw [hc.1]
          exact (by simpa using hp)
        · rfl
    · rw [heq] at hnd2
      exact hinv i nd hnd2
  · rw [if_neg hc] at hnd2
    exact hinv i nd hnd2

lemma foldPairs_origin (sqrtFn : ℚ → ℚ) (ps0 : List (Nat × Nat)) :
    ∀ (ps : List (Nat × Nat)) (cs : List Cell),
      (∀ p ∈ ps, p ∈ ps0) →
      (∀ i nd, nd ∈ (cs.getD i dummyCell).neighbor_data →
        (i, nd.index) ∈ ps0 ∧
        nd.distance = sqrtFn (squared_euclidean (cs.getD i dummyCell).location
          (cs.getD nd.index dummyCell).location)) →
      ∀ i nd, nd ∈ ((ps.foldl (addNeighborPair sqrtFn) cs).getD i dummyCell).neighbor_data →
        (i, nd.index) ∈ ps0 ∧
        nd.distance = sqrtFn (squared_euclidean
          ((ps.foldl (addNeighborPair sqrtFn) cs).getD i dummyCell).location
          ((ps.foldl (addNeighborPair sqrtFn) cs).getD nd.index dummyCell).location) := by
  intro ps
  induction ps with
  | nil => intro cs _ hinv; exact hinv
  | cons p ps ih =>
    intro cs hps hinv
    rw [List.foldl_cons]
    exact ih _ (fun q hq => hps q (List.mem_cons_of_mem p hq))
      (addNeighborPair_origin sqrtFn ps0 cs p (hps p (List.mem_cons_self p ps)) hinv)

lemma addNeighborPair_nodup (sqrtFn : ℚ → ℚ) (cs : List Cell) (p : Nat × Nat)
    (h : ∀ i, (((cs.getD i dummyCell).neighbor_data).map NeighborData.index).Nodup) :
    ∀ i, ((((addNeighborPair sqrtFn cs p).getD i dummyCell).neighbor_data).map
      NeighborData.index).Nodup := by
  intro i
  unfold addNeighborPair
  rw [getD_setCellAt]
  split
  · rcases add_neighbor_cases sqrtFn (cs.getD i dummyCell) p.2
        ((cs.getD p.2 dummyCell).location) with ⟨hdata, hfresh⟩ | ⟨heq, _⟩
    · rw [hdata, List.map_append]
      rw [List.nodup_append]
      refine ⟨h i, by simp, ?_⟩
      intro a ha hb
      have hb2 : a = p.2 := by simpa using hb
      obtain ⟨nd, hnd, hidx⟩ := List.mem_map.mp ha
      exact hfresh nd hnd (by rw [hidx, hb2])
    · rw [heq]
      exact h i
  · exact h i

lemma foldPairs_nodup (sqrtFn : ℚ → ℚ) :
    ∀ (ps : List (Nat × Nat)) (cs : List Cell),
      (∀ i, (((cs.getD i dummyCell).neighbor_data).map NeighborData.index).Nodup) →
      ∀ i, ((((ps.foldl (addNeighborPair sqrtFn) cs).getD i dummyCell).neighbor_data).map
        NeighborData.index).Nodup := by
  intro ps
  induction ps with
  | nil => intro cs h; exact h
  | cons p ps ih =>
    intro cs h
    rw [List.foldl_cons]
    exact ih _ (addNeighborPair_nodup sqrtFn cs p h)

lemma trianglePairs_symm (tris : List (Nat × Nat × Nat)) (i j : Nat)
    (h : (i, j) ∈ tris.flatMap trianglePairs) :
    (j, i) ∈ tris.flatMap trianglePairs := by
  rw [List.mem_flatMap] at h ⊢
  obtain ⟨tri, htri, hmem⟩ := h
  refine ⟨tri, htri, ?_⟩
  simp only [trianglePairs, List.mem_cons, List.mem_singleton, Prod.mk.injEq,
    List.not_mem_nil, or_false] at hmem ⊢
  tauto

lemma trianglePairs_bound (tris : List (Nat × Nat × Nat)) (n : Nat)
    (htris : ∀ tri ∈ tris, tri.1 < n ∧ tri.2.1 < n ∧ tri.2.2 < n)
    (i j : Nat) (h : (i, j) ∈ tris.flatMap trianglePairs) : i < n ∧ j < n := by
  rw [List.mem_flatMap] at h
  obtain ⟨tri, htri, hmem⟩ := h
  obtain ⟨h1, h2, h3⟩ := htris tri htri
  simp only [trianglePairs, List.mem_cons, List.mem_singleton, Prod.mk.injEq,
    List.not_mem_nil, or_false] at hmem
  rcases hmem with ⟨rfl, rfl⟩ | ⟨rfl, rfl⟩ | ⟨rfl, rfl⟩ | ⟨rfl, rfl⟩ | ⟨rfl, rfl⟩ | ⟨rfl, rfl⟩ <;>
    exact ⟨by assumption, by assumption⟩

/-- C3: for every terrain built by the mesh builder from a point set and a
triangulation whose vertex indices are in range, the neighbor relation is
symmetric with equal recorded distances (if cell `i` lists `j` at distance
`d`, cell `j` lists `i` at distance `d`), and no cell's neighbor list repeats
an index. -/
theorem C3_neighbor_symmetry (sqrtFn : ℚ → ℚ) (triangles : List (Nat × Nat × Nat))
    (points : List Point) (height_at depth_at : Point → ℚ) (t : Terrain)
    (ht : t = Terrain.generate sqrtFn triangles points height_at depth_at)
    (htris : ∀ tri ∈ triangles, tri.1 < points.length ∧ tri.2.1 < points.length ∧
      tri.2.2 < points.length) :
    (∀ i nd, nd ∈ (t.cells.getD i dummyCell).neighbor_data →
      ∃ nd', nd' ∈ (t.cells.getD nd.index dummyCell).neighbor_data ∧
        nd'.index = i ∧ nd'.distance = nd.distance) ∧
    (∀ i, (((t.cells.getD i dummyCell).neighbor_data).map NeighborData.index).Nodup) := by
  set cells0 : List Cell := points.map (fun p => Cell.new p (height_at p) (depth_at p))
    with hcells0
  set ps : List (Nat × Nat) := triangles.flatMap trianglePairs with hps
  have htc : t.cells = ps.foldl (addNeighborPair sqrtFn) cells0 := by
    rw [ht]
    show Terrain.calculate_neighbors sqrtFn triangles cells0 = _
    rw [calculate_neighbors_eq_foldl]
  have hfresh : ∀ i, ((cells0.getD i dummyCell).neighbor_data) = [] := by
    intro i
    rw [hcells0]
    by_cases h : i < (points.map (fun p => Cell.new p (height_at p) (depth_at p))).length
    · rw [List.getD_eq_getElem _ dummyCell h, List.getElem_map]
      rfl
    · rw [List.getD_eq_default _ dummyCell (by omega)]
      rfl
  have hlen0 : cells0.length = points.length := by
    rw [hcells0, List.length_map]
  have horigin := foldPairs_origin sqrtFn ps ps cells0 (fun p hp => hp)
    (by
      intro i nd hnd
      rw [hfresh i] at hnd
      cases hnd)
  constructor
  · intro i nd hnd
    rw [htc] at hnd
    obtain ⟨hmem, hdist⟩ := horigin i nd hnd
    have hmem' : (nd.index, i) ∈ ps := trianglePairs_symm triangles i nd.index hmem
    have hbound := trianglePairs_bound triangles points.length htris nd.index i hmem'
    obtain ⟨ndlt, _⟩ := hbound
    obtain ⟨nd', hnd', hidx'⟩ := foldPairs_processed sqrtFn ps cells0 (nd.index, i) hmem'
      (by rw [hlen0]; exact ndlt)
    obtain ⟨_, hdist'⟩ := horigin nd.index nd' hnd'
    refine ⟨nd', by rw [htc]; exact hnd', hidx', ?_⟩
    rw [hdist', hdist, hidx']
    rw [squared_euclidean_comm]
  · intro i
    rw [htc]
    apply foldPairs_nodup
    intro i2
    rw [hfresh i2]
    exact List.nodup_nil

/-- C3 witness: a three-point terrain built from one triangle, with the
identity standing in for the square root. -/
theorem C3_neighbor_symmetry_witness :
    (Terrain.generate id [(0, 1, 2)] [⟨0, 0⟩, ⟨1, 0⟩, ⟨0, 1⟩] (fun _ => 0) (fun _ => 0) =
      Terrain.generate id [(0, 1, 2)] [⟨0, 0⟩, ⟨1, 0⟩, ⟨0, 1⟩] (fun _ => 0) (fun _ => 0)) ∧
    (∀ tri ∈ [((0 : Nat), (1 : Nat), (2 : Nat))],
      tri.1 < ([⟨0, 0⟩, ⟨1, 0⟩, ⟨0, 1⟩] : List Point).length ∧
      tri.2.1 < ([⟨0, 0⟩, ⟨1, 0⟩, ⟨0, 1⟩] : List Point).length ∧
      tri.2.2 < ([⟨0, 0⟩, ⟨1, 0⟩, ⟨0, 1⟩] : List Point).length) ∧
    ((∀ i nd, nd ∈ ((Terrain.generate id [(0, 1, 2)] [⟨0, 0⟩, ⟨1, 0⟩, ⟨0, 1⟩]
          (fun _ => 0) (fun _ => 0)).cells.getD i dummyCell).neighbor_data →
      ∃ nd', nd' ∈ ((Terrain.generate id [(0, 1, 2)] [⟨0, 0⟩, ⟨1, 0⟩, ⟨0, 1⟩]
          (fun _ => 0) (fun _ => 0)).cells.getD nd.index dummyCell).neighbor_data ∧
        nd'.index = i ∧ nd'.distance = nd.distance) ∧
    (∀ i, ((((Terrain.generate id [(0, 1, 2)] [⟨0, 0⟩, ⟨1, 0⟩, ⟨0, 1⟩]
        (fun _ => 0) (fun _ => 0)).cells.getD i dummyCell).neighbor_data).map
      NeighborData.index).Nodup)) :=
  ⟨rfl, by decide,
   C3_neighbor_symmetry id [(0, 1, 2)] [⟨0, 0⟩, ⟨1, 0⟩, ⟨0, 1⟩] (fun _ => 0) (fun _ => 0)
     (Terrain.generate id [(0, 1, 2)] [⟨0, 0⟩, ⟨1, 0⟩, ⟨0, 1⟩] (fun _ => 0) (fun _ => 0))
     rfl (by decide)⟩
